import Mathlib

/-!
# TIS-100 compiler (`tis100compile.c`): embedding and verified properties

The C program is embedded shallowly:

* a C string is the list of its characters before the terminating NUL (`CStr`);
* `uint16_t` values are `Nat`, with `u16` applied where a wider `int` expression is
  stored into a `uint16_t`;
* the process-wide `failedCompile` flag and the diagnostics written to `stderr` are
  threaded through every function as a `Err` record;
* the three 16-entry arrays of `main` are functions from the index to the entry; the
  program only ever indexes them with `0..15`;
* loops with a bound are recursions on the number of remaining iterations.
-/

namespace TIS100

/-- A C string: the characters stored before the terminating NUL. -/
abbrev CStr := List Char

/-- One line written to `stderr`, with the values that are formatted into it. -/
inductive Diag where
  /-- Text `Node %i, line %i: Too many arguments.` -/
  | tooManyArguments (node : Int) (line : Nat)
  /-- Text `Node %i: Too many lines of code` -/
  | tooManyLines (node : Int)
  /-- Text `Node %i, line %i: Opcode %s is not valid.` -/
  | invalidOpcode (node : Int) (line : Nat) (cmd : CStr)
  /-- Text `Node %i, line %i: Literal %i is outside valid range of -1024 to 1023.` -/
  | literalOutOfRange (node : Int) (line : Nat) (number : Int)
  /-- Text `Node %i, line %i: Register Name %s is not valid.` -/
  | invalidRegister (node : Int) (line : Nat) (reg : CStr)
  /-- Text `Node %i, Line %i: Label %s not found.` -/
  | labelNotFound (node : Int) (line : Nat) (label : CStr)
  /-- Text `Compilation Failed` -/
  | compilationFailed
  deriving DecidableEq, Repr

/-- The global `failedCompile` flag together with everything printed to `stderr`
(oldest diagnostic first). -/
structure Err where
  failedCompile : Bool
  stderr : List Diag
  deriving DecidableEq, Repr

/-- The statement pair `failedCompile = true; fprintf(stderr, ...)` (in either order). -/
def Err.fail (e : Err) (d : Diag) : Err :=
  { failedCompile := true, stderr := e.stderr ++ [d] }

/-- Storing an `int` expression into a `uint16_t`. -/
def u16 (n : Nat) : Nat := n % 65536

/-! ## `EncodeReg` -/

/-- Source: `EncodeReg` (lines 300-314). The `strcmp` chain over the register names. -/
def EncodeReg (node : Int) (line : Nat) (reg : CStr) (e : Err) : Nat × Err :=
  if reg = ['N', 'I', 'L'] then (0, e)
  else if reg = ['A', 'C', 'C'] then (1, e)
  else if reg = ['A', 'N', 'Y'] then (2, e)
  else if reg = ['L', 'A', 'S', 'T'] then (3, e)
  else if reg = ['L', 'E', 'F', 'T'] then (4, e)
  else if reg = ['R', 'I', 'G', 'H', 'T'] then (5, e)
  else if reg = ['U', 'P'] then (6, e)
  else if reg = ['D', 'O', 'W', 'N'] then (7, e)
  else (0, e.fail (Diag.invalidRegister node (line + 1) reg))

/-! ## `atoi` (C library) -/

/-- C `isspace` in the "C" locale. -/
def isspace (c : Char) : Bool :=
  c = ' ' || c = '\t' || c = '\n' || c = '\x0b' || c = '\x0c' || c = '\r'

/-- C `isdigit`. -/
def isdigit (c : Char) : Bool := decide ('0' ≤ c) && decide (c ≤ '9')

/-- The digit loop of `atoi`: consume decimal digits, stop at the first other character. -/
def atoiDigits : CStr → Nat → Nat
  | [], acc => acc
  | c :: cs, acc => if isdigit c then atoiDigits cs (acc * 10 + (c.toNat - 48)) else acc

/-- The sign and digits of `atoi`, after leading white space has been skipped. -/
def atoiSigned : CStr → Int
  | '-' :: cs => - (atoiDigits cs 0 : Int)
  | '+' :: cs => (atoiDigits cs 0 : Int)
  | cs => (atoiDigits cs 0 : Int)

/-- C library `atoi`: skip white space, read an optional sign and the decimal digits that
follow. The result is the mathematical value; C leaves the result undefined when it does
not fit an `int` (the source buffers hold at most 31 characters), so statements about
numeric literals below assume the value fits. -/
def atoi (s : CStr) : Int := atoiSigned (s.dropWhile isspace)

/-! ## `EncodeSource` -/

/-- Source: the classification loop of `EncodeSource` (lines 274-281); returns the final
`i` and `isDigit`. -/
def digitLoop : CStr → Nat → Bool → Nat × Bool
  | [], i, isDigit => (i, isDigit)
  | c :: cs, i, isDigit =>
    digitLoop cs (i + 1)
      (if (c < '0' ∨ c > '9') ∧ ¬ (i = 0 ∧ c = '-') then false else isDigit)

/-- Source: `isDigit` as it stands at line 285, after the `i==0` adjustment. -/
def sourceIsDigit (source : CStr) : Bool :=
  let r := digitLoop source 0 true
  if r.1 = 0 then false else r.2

/-- Source: `EncodeSource` (lines 272-297). -/
def EncodeSource (node : Int) (line : Nat) (source : CStr) (e : Err) : Nat × Err :=
  if sourceIsDigit source then
    let number := atoi source
    let e1 := if number > 1023 ∨ number < -1024
      then e.fail (Diag.literalOutOfRange node (line + 1) number) else e
    ((number % 65536).toNat &&& 0x7FF, e1)
  else
    let r := EncodeReg node line source e
    (u16 (((r.1 <<< 8) &&& 0x700) ||| 0x800), r.2)

/-! ## `GenCommand` -/

/-- Source: `GenCommand` (lines 239-266). In the `MOV` case the two encoder calls are
operands of `|`; they are taken left to right here (C leaves the order open, which only
affects the order of two diagnostics). -/
def GenCommand (node : Int) (line : Nat) (cmd arg0 arg1 : CStr) (e : Err) : Nat × Err :=
  if cmd = ['M', 'O', 'V'] then
    let s := EncodeSource node line arg0 e
    let r := EncodeReg node line arg1 s.2
    (u16 ((0x0000 ||| s.1) ||| (r.1 <<< 12)), r.2)
  else if cmd = ['A', 'D', 'D'] then
    let s := EncodeSource node line arg0 e
    (u16 (0x8000 ||| s.1), s.2)
  else if cmd = ['S', 'U', 'B'] then
    let s := EncodeSource node line arg0 e
    (u16 (0x8001 ||| s.1), s.2)
  else if cmd = ['J', 'R', 'O'] then
    let s := EncodeSource node line arg0 e
    (u16 (0x8002 ||| s.1), s.2)
  else if cmd = ['J', 'M', 'P'] then (0xC000, e)
  else if cmd = ['J', 'E', 'Z'] then (0xC400, e)
  else if cmd = ['J', 'N', 'Z'] then (0xC800, e)
  else if cmd = ['J', 'G', 'Z'] then (0xCC00, e)
  else if cmd = ['J', 'L', 'Z'] then (0xD000, e)
  else if cmd = ['N', 'E', 'G'] then (0xE000, e)
  else if cmd = ['S', 'A', 'V'] then (0xE200, e)
  else if cmd = ['S', 'W', 'P'] then (0xE400, e)
  else if cmd = ['N', 'O', 'P'] then (0x0000, e)
  else (0x0000, e.fail (Diag.invalidOpcode node (line + 1) cmd))

/-! ## `EncodeLabels` -/

/-- Source: the inner `while (j<16)` loop of `EncodeLabels` (lines 325-331), as a
recursion on the number of iterations left; returns the final `j`. -/
def labelScan (labels : Nat → CStr) (target : CStr) : Nat → Nat → Nat
  | 0, j => j
  | n + 1, j => if labels j = target then j else labelScan labels target n (j + 1)

/-- Source: the body of the `for` loop of `EncodeLabels` for one `i` (lines 324-339). -/
def encodeLabelsStep (node : Int) (labels jump_labels : Nat → CStr)
    (st : (Nat → Nat) × Err) (i : Nat) : (Nat → Nat) × Err :=
  if st.1 i &&& 0xE000 = 0xC000 then
    let j := labelScan labels (jump_labels i) 16 0
    if j = 16 then
      (st.1, st.2.fail (Diag.labelNotFound node (i + 1) (jump_labels i)))
    else
      (fun x => if x = i then u16 (st.1 i ||| (j <<< 6)) else st.1 x, st.2)
  else st

/-- Source: `EncodeLabels` (lines 322-341): the step for `i = 0, 1, ..., 15` in order. -/
def EncodeLabels (node : Int) (commands : Nat → Nat) (labels jump_labels : Nat → CStr)
    (e : Err) : (Nat → Nat) × Err :=
  (List.range 16).foldl (encodeLabelsStep node labels jump_labels) (commands, e)

/-! ## The driver (`main`) -/

/-- One item printed to `stdout`. -/
inductive Out where
  /-- Node header `"\n%02x\n"`, carrying `node & 0xFF`. -/
  | header (n : Nat)
  /-- One word `"%02x%02x"` (low byte, high byte) and whether a newline (rather than a
  space) follows it. -/
  | word (lo hi : Nat) (eol : Bool)
  deriving DecidableEq, Repr

/-- The variables of `main` that live across lines, with the global error state. Before
the first node directive the three arrays hold whatever the initial record holds (they
are uninitialised in C). -/
structure Driver where
  err : Err
  stdout : List Out
  nodeProcessed : Bool
  labels : Nat → CStr
  jump_labels : Nat → CStr
  commands : Nat → Nat
  node : Int
  lineNum : Nat
  cmdLineNum : Nat

/-- The variables of the per-line scanning loop. `word` holds `word[0..wordindex)`, so
`wordindex > 0` reads `word ≠ []`. -/
structure Scan where
  commentflag : Bool
  word : CStr
  cmd : CStr
  arg0 : CStr
  arg1 : CStr
  labels : Nat → CStr
  err : Err

/-- Source: one iteration of the character loop of `main` (lines 169-195). -/
def scanChar (node : Int) (lineNum cmdLineNum : Nat) (s : Scan) (c : Char) : Scan :=
  if c = ':' ∧ s.commentflag = false ∧ cmdLineNum < 16 then
    { s with labels := fun x => if x = cmdLineNum then s.word else s.labels x, word := [] }
  else if c = '#' then
    { s with commentflag := true }
  else if s.commentflag = false ∧ (c = ',' ∨ c = ' ' ∨ c = '\r' ∨ c = '\n') then
    let s1 :=
      if s.word ≠ [] then
        if s.cmd = [] then { s with cmd := s.word }
        else if s.arg0 = [] then { s with arg0 := s.word }
        else if s.arg1 = [] then { s with arg1 := s.word }
        else { s with err := s.err.fail (Diag.tooManyArguments node lineNum) }
      else s
    { s1 with word := [] }
  else
    { s with word := s.word ++ [c] }

/-- Source: the loop `while (line[i] != 0)` of `main` (lines 168-197) over the line
buffer; it stops at the end of the buffer contents or at an embedded NUL. -/
def scanLine (node : Int) (lineNum cmdLineNum : Nat) : CStr → Scan → Scan
  | [], s => s
  | c :: cs, s =>
    if c = '\x00' then s else scanLine node lineNum cmdLineNum cs (scanChar node lineNum cmdLineNum s c)

/-- Source: the scanning loop started from the per-line initialisation (lines 160-166). -/
def scanOf (d : Driver) (line : CStr) : Scan :=
  scanLine d.node d.lineNum d.cmdLineNum line
    { commentflag := false, word := [], cmd := [], arg0 := [], arg1 := [],
      labels := d.labels, err := d.err }

/-- Source: the `else` branch of the line loop of `main` (lines 159-211): scan the line,
then store the command if a mnemonic was found. -/
def codeLine (d : Driver) (line : CStr) : Driver :=
  let s := scanOf d line
  if s.cmd ≠ [] then
    let over : Bool := decide (d.cmdLineNum ≥ 16)
    let c := if over then 0 else d.cmdLineNum
    let e := if over then s.err.fail (Diag.tooManyLines d.node) else s.err
    let g := GenCommand d.node d.lineNum s.cmd s.arg0 s.arg1 e
    { d with
      labels := s.labels
      commands := fun x => if x = c then g.1 else d.commands x
      jump_labels :=
        if g.1 &&& 0xE000 = 0xC000 then fun x => if x = c then s.arg0 else d.jump_labels x
        else d.jump_labels
      err := g.2
      cmdLineNum := c + 1
      lineNum := d.lineNum + 1 }
  else
    { d with labels := s.labels, err := s.err, lineNum := d.lineNum + 1 }

/-- Source: the words printed for one node (lines 134-142 and 218-226). -/
def printWords (commands : Nat → Nat) : List Out :=
  (List.range 16).map fun j =>
    Out.word (commands j &&& 0xFF) ((commands j >>> 8) &&& 0xFF) (decide (j &&& 0x3 = 0x3))

/-- Source: `if (nodeProcessed) { EncodeLabels(...); print the 16 words }` (lines 132-143
and 216-227). -/
def emitNode (d : Driver) : Driver :=
  if d.nodeProcessed then
    let r := EncodeLabels d.node d.commands d.labels d.jump_labels d.err
    { d with commands := r.1, err := r.2, stdout := d.stdout ++ printWords r.1 }
  else d

/-- Source: the node-designator branch of `main` (lines 130-156): emit the previous
node, reset the arrays and counters, read and print the node index. -/
def nodeLine (d : Driver) (line : CStr) : Driver :=
  let d1 := emitNode d
  let node := atoi (line.drop 1)
  { d1 with
    commands := fun j => if j < 16 then 0xC000 else d1.commands j
    labels := fun j => if j < 16 then [] else d1.labels j
    jump_labels := fun j => if j < 16 then [] else d1.jump_labels j
    lineNum := 0
    cmdLineNum := 0
    nodeProcessed := true
    node := node
    stdout := d1.stdout ++ [Out.header (node % 256).toNat] }

/-- Source: the body of `while (fgets(line, 32, code) != NULL)` for one line buffer. -/
def processLine (d : Driver) (line : CStr) : Driver :=
  if line.head? = some '@' then nodeLine d line else codeLine d line

/-- C library `fgets` on a non-empty rest of input with room for `n` characters: the
characters read (up to and including the first newline) and the input left. -/
def fgetsChars : Nat → List Char → List Char × List Char
  | 0, inp => ([], inp)
  | _ + 1, [] => ([], [])
  | n + 1, c :: cs =>
    if c = '\n' then ([c], cs)
    else ((fgetsChars n cs).1.cons c, (fgetsChars n cs).2)

/-- C library `fgets(line, size, code)`: `none` at end of input. -/
def fgets (size : Nat) (inp : List Char) : Option (List Char × List Char) :=
  if inp = [] then none else some (fgetsChars (size - 1) inp)

/-- Source: the loop `while (fgets(line, 32, code) != NULL)` (lines 125-212), with a
bound on the number of iterations. -/
def mainLoop : Nat → List Char → Driver → Driver
  | 0, _, d => d
  | fuel + 1, inp, d =>
    match fgets 32 inp with
    | none => d
    | some r => mainLoop fuel r.2 (processLine d r.1)

/-- The variables of `main` at the first `fgets`; the three arrays are uninitialised in C
and are given by the caller. -/
def initDriver (labels jump_labels : Nat → CStr) (commands : Nat → Nat) : Driver :=
  { err := { failedCompile := false, stderr := [] }, stdout := [], nodeProcessed := false,
    labels := labels, jump_labels := jump_labels, commands := commands,
    node := 0, lineNum := 0, cmdLineNum := 0 }

/-- Source: the end of `main` (lines 215-234): emit the last node, report failure. Returns
the exit status with the final state. -/
def finish (d : Driver) : Nat × Driver :=
  let d1 := emitNode d
  if d1.err.failedCompile then
    (1, { d1 with err := { d1.err with stderr := d1.err.stderr ++ [Diag.compilationFailed] } })
  else (0, d1)

/-- Source: `main` once the input file is open, on the file contents `input`. Every
`fgets` call on a non-empty rest consumes at least one character, so `input.length`
iterations reach the end of input. -/
def main (labels jump_labels : Nat → CStr) (commands : Nat → Nat) (input : List Char) :
    Nat × Driver :=
  finish (mainLoop input.length input (initDriver labels jump_labels commands))

/-- The 16 words of the command array, slot 0 first. -/
def words (commands : Nat → Nat) : List Nat := (List.range 16).map commands

/-- `main` with the uninitialised arrays filled with empty strings and zero words. -/
def compile (input : List Char) : Nat × Driver :=
  main (fun _ => []) (fun _ => []) (fun _ => 0) input

/-! ## Specification-side definitions -/

/-- The register table of the documentation (code 0 first). -/
def registerNames : List CStr :=
  [['N', 'I', 'L'], ['A', 'C', 'C'], ['A', 'N', 'Y'], ['L', 'A', 'S', 'T'],
   ['L', 'E', 'F', 'T'], ['R', 'I', 'G', 'H', 'T'], ['U', 'P'], ['D', 'O', 'W', 'N']]

/-- The decimal text of an integer: its digits, after one `-` when it is negative. -/
def decimalText (n : Int) : CStr :=
  if n < 0 then '-' :: Nat.toDigits 10 n.natAbs else Nat.toDigits 10 n.toNat

/-- Bits [10:0] of a word read as an 11-bit two's-complement number (bit 10 is the sign). -/
def decode11 (w : Nat) : Int :=
  if w &&& 0x400 = 0 then ((w &&& 0x7FF : Nat) : Int) else ((w &&& 0x7FF : Nat) : Int) - 2048

/-- A numeric token as the documentation describes it: not empty, every character a
decimal digit, except that the first one may be `-`. -/
def numericToken : CStr → Bool
  | [] => false
  | c :: cs => (isdigit c || c == '-') && cs.all isdigit

/-- The jump-class test used by `main` and `EncodeLabels`: `(w & 0xE000) == 0xC000`. -/
def jumpClass (w : Nat) : Prop := w &&& 0xE000 = 0xC000

instance (w : Nat) : Decidable (jumpClass w) := by unfold jumpClass; infer_instance

/-! ## Per-slot description of `EncodeLabels` -/

/-- The word `EncodeLabels` leaves in slot `i` when it finds the word `w` there. -/
def resolvedWord (labels jump_labels : Nat → CStr) (w i : Nat) : Nat :=
  if w &&& 0xE000 = 0xC000 then
    if labelScan labels (jump_labels i) 16 0 = 16 then w
    else u16 (w ||| (labelScan labels (jump_labels i) 16 0 <<< 6))
  else w

/-- The diagnostics `EncodeLabels` prints for slot `i` when it finds the word `w` there. -/
def slotDiags (node : Int) (labels jump_labels : Nat → CStr) (w i : Nat) : List Diag :=
  if w &&& 0xE000 = 0xC000 ∧ labelScan labels (jump_labels i) 16 0 = 16 then
    [Diag.labelNotFound node (i + 1) (jump_labels i)]
  else []

/-- The diagnostics of the slots listed in `l`, in that order. -/
def labelDiags (node : Int) (labels jump_labels : Nat → CStr) (commands : Nat → Nat) :
    List Nat → List Diag
  | [] => []
  | i :: l =>
    slotDiags node labels jump_labels (commands i) i ++
      labelDiags node labels jump_labels commands l

/-! ## Runs of the driver over the lines of one node -/

/-- The driver state reached from `d` after the first `t` line buffers of `body`. -/
def stateAt (d : Driver) (body : List CStr) (t : Nat) : Driver :=
  (body.take t).foldl processLine d

/-- The four separators of the tokenizer: comma, space, CR and LF. -/
def isDelim (c : Char) : Bool := c = ',' || c = ' ' || c = '\r' || c = '\n'

/-- A character with no role of its own in a line: not a separator, not `:`, not `#`
and not NUL. -/
def isPlain (c : Char) : Bool := !(isDelim c) && c != ':' && c != '#' && c != '\x00'

/-- The maximal runs of characters other than separators in `line`, left to right; `cur`
is the run being read when `line` starts. -/
def runsFrom : CStr → CStr → List CStr
  | [], cur => if cur = [] then [] else [cur]
  | c :: cs, cur =>
    if isDelim c then (if cur = [] then runsFrom cs [] else cur :: runsFrom cs [])
    else runsFrom cs (cur ++ [c])

/-- The maximal runs of characters other than space, comma, CR and LF in `line`. -/
def runs (line : CStr) : List CStr := runsFrom line []

/-- Source: the body of `if (wordindex > 0)` in the whitespace branch (lines 180-187),
applied to the finished word `w`: it goes to the first empty one of `cmd`, `arg0`,
`arg1`, and is an error when none is empty. -/
def pushWord (node : Int) (lineNum : Nat) (s : Scan) (w : CStr) : Scan :=
  if s.cmd = [] then { s with cmd := w }
  else if s.arg0 = [] then { s with arg0 := w }
  else if s.arg1 = [] then { s with arg1 := w }
  else { s with err := s.err.fail (Diag.tooManyArguments node lineNum) }

/-! ## Following the error state -/

theorem EncodeReg_lt (node : Int) (line : Nat) (reg : CStr) (e : Err) :
    (EncodeReg node line reg e).1 < 8 := by
  unfold EncodeReg
  repeat' split
  all_goals simp

theorem EncodeReg_fst_indep (node : Int) (line : Nat) (reg : CStr) (e e' : Err) :
    (EncodeReg node line reg e).1 = (EncodeReg node line reg e').1 := by
  unfold EncodeReg
  repeat' split
  all_goals rfl

theorem EncodeReg_of_not_mem (node : Int) (line : Nat) (reg : CStr) (e : Err)
    (h : reg ∉ registerNames) :
    EncodeReg node line reg e = (0, e.fail (Diag.invalidRegister node (line + 1) reg)) := by
  simp only [registerNames, List.mem_cons, List.mem_singleton, List.not_mem_nil, or_false,
    not_or] at h
  obtain ⟨h0, h1, h2, h3, h4, h5, h6, h7⟩ := h
  simp only [EncodeReg, if_neg h0, if_neg h1, if_neg h2, if_neg h3, if_neg h4, if_neg h5,
    if_neg h6, if_neg h7]

theorem EncodeReg_of_mem (node : Int) (line : Nat) (reg : CStr) (e : Err)
    (h : reg ∈ registerNames) : (EncodeReg node line reg e).2 = e := by
  simp only [registerNames, List.mem_cons, List.mem_singleton, List.not_mem_nil, or_false] at h
  rcases h with h | h | h | h | h | h | h | h <;> subst h <;> rfl

/-- Register field of a source operand: the values `0x800 | (r << 8)` for `r < 8`. -/
theorem regField_eq (r : Nat) (h : r < 8) :
    u16 (((r <<< 8) &&& 0x700) ||| 0x800) = 0x800 ||| (r <<< 8) := by
  interval_cases r <;> decide

theorem regField_bits (r : Nat) (h : r < 8) :
    (0x800 ||| (r <<< 8)) &&& 0x800 = 0x800 ∧ ((0x800 ||| (r <<< 8)) >>> 8) &&& 0x7 = r ∧
      (0x800 ||| (r <<< 8)) &&& 0xFF = 0 ∧ 0x800 ||| (r <<< 8) < 4096 := by
  interval_cases r <;> decide

theorem toNat_emod_and (n : Int) : (n % 65536).toNat &&& 0x7FF = (n % 2048).toNat := by
  have h : (0x7FF : Nat) = 2 ^ 11 - 1 := by norm_num
  rw [h, Nat.and_pow_two_sub_one_eq_mod]
  omega

theorem EncodeSource_lt (node : Int) (line : Nat) (source : CStr) (e : Err) :
    (EncodeSource node line source e).1 < 4096 := by
  unfold EncodeSource
  split
  · simp only [toNat_emod_and]
    omega
  · simp only
    rw [regField_eq _ (EncodeReg_lt _ _ _ _)]
    exact (regField_bits _ (EncodeReg_lt _ _ _ _)).2.2.2

theorem EncodeSource_fst_indep (node : Int) (line : Nat) (source : CStr) (e e' : Err) :
    (EncodeSource node line source e).1 = (EncodeSource node line source e').1 := by
  unfold EncodeSource
  split
  · rfl
  · simp only [EncodeReg_fst_indep node line source e e']

/-- Packing a 3-bit field above a 12-bit field. -/
theorem pack_fields (a b : Nat) (ha : a < 8) (hb : b < 4096) :
    u16 ((0x0000 ||| b) ||| (a <<< 12)) = (a <<< 12) ||| b ∧
      ((a <<< 12) ||| b) &&& 0x8000 = 0 ∧ (((a <<< 12) ||| b) >>> 12) &&& 0x7 = a ∧
      ((a <<< 12) ||| b) &&& 0xFFF = b := by
  have e1 : (a <<< 12) ||| b = 2 ^ 12 * a + b := by
    rw [Nat.shiftLeft_eq, Nat.mul_comm]
    exact (Nat.mul_add_lt_is_or (by simpa using hb) a).symm
  have h7 : (0x7 : Nat) = 2 ^ 3 - 1 := by norm_num
  have hF : (0xFFF : Nat) = 2 ^ 12 - 1 := by norm_num
  refine ⟨?_, ?_, ?_, ?_⟩
  · rw [Nat.zero_or, Nat.or_comm, e1, u16]; omega
  · apply Nat.eq_of_testBit_eq
    intro i
    have h8 : (0x8000 : Nat) = 2 ^ 15 := by norm_num
    rw [e1, Nat.testBit_and, h8, Nat.testBit_two_pow, Nat.zero_testBit]
    by_cases hi : 15 = i
    · subst hi
      rw [Nat.testBit_lt_two_pow (by omega)]; rfl
    · simp [hi]
  · rw [e1, h7, Nat.and_pow_two_sub_one_eq_mod, Nat.shiftRight_eq_div_pow]; omega
  · rw [e1, hF, Nat.and_pow_two_sub_one_eq_mod]; omega

/-! ## Decimal digits, `atoi` and the numeric classification -/

theorem digitChar_isdigit (k : Nat) (h : k < 10) :
    isdigit (Nat.digitChar k) = true ∧ (Nat.digitChar k).toNat - 48 = k := by
  interval_cases k <;> exact ⟨by decide, by decide⟩

theorem toDigitsCore_all (fuel : Nat) : ∀ (n : Nat) (ds : List Char),
    (∀ c ∈ ds, isdigit c = true) → ∀ c ∈ Nat.toDigitsCore 10 fuel n ds, isdigit c = true := by
  induction fuel with
  | zero => intro n ds h; simpa [Nat.toDigitsCore] using h
  | succ fuel ih =>
    intro n ds h
    have hd : ∀ c ∈ Nat.digitChar (n % 10) :: ds, isdigit c = true := by
      intro c hc
      rcases List.mem_cons.mp hc with hc | hc
      · rw [hc]; exact (digitChar_isdigit _ (Nat.mod_lt _ (by decide))).1
      · exact h c hc
    simp only [Nat.toDigitsCore]
    split
    · exact hd
    · exact ih _ _ hd

theorem toDigitsCore_ne_nil (fuel n : Nat) (ds : List Char) :
    Nat.toDigitsCore 10 (fuel + 1) n ds ≠ [] := by
  induction fuel generalizing n ds with
  | zero => simp [Nat.toDigitsCore]
  | succ fuel ih =>
    rw [Nat.toDigitsCore]
    split
    · simp
    · exact ih _ _

theorem atoiDigits_toDigitsCore (fuel : Nat) : ∀ (n : Nat) (ds : List Char), n < fuel →
    atoiDigits (Nat.toDigitsCore 10 fuel n ds) 0 = atoiDigits ds n := by
  induction fuel with
  | zero => intro n ds h; omega
  | succ fuel ih =>
    intro n ds h
    have hd := digitChar_isdigit (n % 10) (Nat.mod_lt _ (by decide))
    simp only [Nat.toDigitsCore]
    split
    · rename_i h0
      simp only [atoiDigits, hd.1, hd.2, if_true]
      congr 1; omega
    · rename_i h0
      rw [ih _ _ (by omega)]
      simp only [atoiDigits, hd.1, hd.2, if_true]
      congr 1; omega

theorem toDigits_all (n : Nat) : ∀ c ∈ Nat.toDigits 10 n, isdigit c = true :=
  toDigitsCore_all _ _ _ (by simp)

theorem toDigits_ne_nil (n : Nat) : Nat.toDigits 10 n ≠ [] := toDigitsCore_ne_nil _ _ _

theorem atoiDigits_toDigits (n : Nat) : atoiDigits (Nat.toDigits 10 n) 0 = n := by
  rw [Nat.toDigits, atoiDigits_toDigitsCore _ _ _ (by omega)]
  rfl

theorem isdigit_not_special (c : Char) (h : isdigit c = true) :
    isspace c = false ∧ c ≠ '-' ∧ c ≠ '+' := by
  refine ⟨?_, ?_, ?_⟩
  · by_contra hs
    simp only [isspace, Bool.not_eq_false, Bool.or_eq_true, decide_eq_true_eq] at hs
    rcases hs with ((((hs | hs) | hs) | hs) | hs) | hs <;> subst hs <;> exact absurd h (by decide)
  · rintro rfl; exact absurd h (by decide)
  · rintro rfl; exact absurd h (by decide)

theorem atoi_digits (cs : CStr) (hne : cs ≠ []) (h : ∀ c ∈ cs, isdigit c = true) :
    atoi cs = (atoiDigits cs 0 : Int) := by
  cases cs with
  | nil => exact absurd rfl hne
  | cons c cs =>
    have hc := isdigit_not_special c (h c (List.mem_cons_self _ _))
    have h1 : (c :: cs).dropWhile isspace = c :: cs := by
      rw [List.dropWhile_cons_of_neg]; simp [hc.1]
    rw [atoi, h1]
    unfold atoiSigned
    split
    · rename_i heq; exact absurd (List.cons.inj heq).1 hc.2.1
    · rename_i heq; exact absurd (List.cons.inj heq).1 hc.2.2
    · rfl

theorem atoi_minus (cs : CStr) : atoi ('-' :: cs) = - (atoiDigits cs 0 : Int) := by
  have h1 : ('-' :: cs).dropWhile isspace = '-' :: cs := by
    rw [List.dropWhile_cons_of_neg]; decide
  rw [atoi, h1, atoiSigned]

theorem atoi_decimalText (n : Int) : atoi (decimalText n) = n := by
  unfold decimalText
  split
  · rw [atoi_minus, atoiDigits_toDigits]; omega
  · rw [atoi_digits _ (toDigits_ne_nil _) (toDigits_all _), atoiDigits_toDigits]; omega

theorem digitLoop_pos (cs : CStr) : ∀ (i : Nat) (b : Bool), 0 < i →
    digitLoop cs i b = (i + cs.length, b && cs.all isdigit) := by
  induction cs with
  | nil => intro i b _; simp [digitLoop]
  | cons c cs ih =>
    intro i b hi
    rw [digitLoop, ih _ _ (by omega)]
    have hi0 : i ≠ 0 := by omega
    simp only [List.length_cons, List.all_cons, hi0, false_and, not_false_eq_true, and_true]
    refine Prod.ext (by simp only; omega) ?_
    simp only
    by_cases hd : isdigit c = true
    · have hd' := hd
      simp only [isdigit, Bool.and_eq_true, decide_eq_true_eq] at hd'
      rw [if_neg (by rintro (h | h); exact absurd hd'.1 (not_le.mpr h); exact absurd hd'.2 (not_le.mpr h)),
        hd]
      simp
    · have hd' := hd
      simp only [isdigit, Bool.and_eq_true, decide_eq_true_eq, not_and_or, not_le] at hd'
      rw [if_pos hd']
      simp [hd]

theorem sourceIsDigit_eq_numericToken (tok : CStr) : sourceIsDigit tok = numericToken tok := by
  cases tok with
  | nil => rfl
  | cons c cs =>
    simp only [sourceIsDigit, digitLoop, digitLoop_pos cs _ _ (Nat.lt_add_one 0), numericToken]
    have h1 : (0 + 1 + cs.length = 0) = False := by simp
    simp only [h1, if_false, true_and]
    congr 1
    by_cases hd : isdigit c = true
    · have hd' := hd
      simp only [isdigit, Bool.and_eq_true, decide_eq_true_eq] at hd'
      rw [if_neg (by rintro ⟨h | h, _⟩; exact absurd hd'.1 (not_le.mpr h); exact absurd hd'.2 (not_le.mpr h)),
        hd]
      simp
    · have hd' := hd
      simp only [isdigit, Bool.and_eq_true, decide_eq_true_eq, not_and_or, not_le] at hd'
      by_cases hm : c = '-'
      · subst hm; rfl
      · rw [if_pos ⟨hd', by simp [hm]⟩]
        simp [hd, hm]

theorem numericToken_decimalText (n : Int) : numericToken (decimalText n) = true := by
  unfold decimalText
  split
  · simp only [numericToken, List.all_eq_true, Bool.and_eq_true]
    exact ⟨by decide, toDigits_all _⟩
  · have hne := toDigits_ne_nil n.toNat
    have hall := toDigits_all n.toNat
    cases hds : Nat.toDigits 10 n.toNat with
    | nil => exact absurd hds hne
    | cons c cs =>
      rw [hds] at hall
      simp only [numericToken, List.all_eq_true, Bool.and_eq_true, Bool.or_eq_true]
      exact ⟨Or.inl (hall c (List.mem_cons_self _ _)),
        fun x hx => hall x (List.mem_cons_of_mem _ hx)⟩

theorem and_two_pow_eq_zero (m k : Nat) : m &&& 2 ^ k = 0 ↔ m / 2 ^ k % 2 = 0 := by
  have key : m.testBit k = false ↔ m / 2 ^ k % 2 = 0 := by
    rw [Nat.testBit_to_div_mod]
    simp only [decide_eq_false_iff_not]
    omega
  rw [← key]
  constructor
  · intro h
    have := congrArg (fun x => Nat.testBit x k) h
    simpa [Nat.testBit_two_pow] using this
  · intro h
    apply Nat.eq_of_testBit_eq
    intro i
    rw [Nat.testBit_and, Nat.testBit_two_pow, Nat.zero_testBit]
    by_cases hi : k = i
    · subst hi; simp [h]
    · simp [hi]

theorem numericToken_false_of (tok : CStr)
    (h : tok = [] ∨ ∃ p c, tok[p]? = some c ∧ isdigit c = false ∧ ¬ (p = 0 ∧ c = '-')) :
    numericToken tok = false := by
  rcases h with h | ⟨p, c, hp, hc, hm⟩
  · subst h; rfl
  · cases tok with
    | nil => simp at hp
    | cons c0 cs =>
      cases p with
      | zero =>
        simp only [List.getElem?_cons_zero, Option.some.injEq] at hp
        subst hp
        have hne : c0 ≠ '-' := fun h => hm ⟨rfl, h⟩
        simp [numericToken, hc, hne]
      | succ p =>
        simp only [List.getElem?_cons_succ] at hp
        have hmem : c ∈ cs := List.mem_iff_getElem?.mpr ⟨p, hp⟩
        have : cs.all isdigit = false := by
          rw [List.all_eq_false]
          exact ⟨c, hmem, by simp [hc]⟩
        simp [numericToken, this]

theorem small_word_bits (m : Nat) (h : m < 2048) :
    m &&& 0x800 = 0 ∧ m &&& 0x7FF = m ∧ (m &&& 0x400 = 0 ↔ m < 1024) := by
  have h8 : (0x800 : Nat) = 2 ^ 11 := by norm_num
  have h7 : (0x7FF : Nat) = 2 ^ 11 - 1 := by norm_num
  have h4 : (0x400 : Nat) = 2 ^ 10 := by norm_num
  refine ⟨?_, ?_, ?_⟩
  · rw [h8, and_two_pow_eq_zero]; omega
  · rw [h7, Nat.and_pow_two_sub_one_eq_mod]; omega
  · rw [h4, and_two_pow_eq_zero]; omega

/-! ## Claims on the operand and instruction encoders -/

/-- C1: `EncodeReg` sends NIL, ACC, ANY, LAST, LEFT, RIGHT, UP, DOWN to 0..7 and leaves
the error state as it was; on the eight names it is injective and reaches every code in
0..7; on every other string (the empty one included) it returns 0, sets `failedCompile`
and prints one diagnostic. -/
theorem C1_EncodeReg_table (node : Int) (line : Nat) (e : Err) :
    EncodeReg node line ['N', 'I', 'L'] e = (0, e) ∧
    EncodeReg node line ['A', 'C', 'C'] e = (1, e) ∧
    EncodeReg node line ['A', 'N', 'Y'] e = (2, e) ∧
    EncodeReg node line ['L', 'A', 'S', 'T'] e = (3, e) ∧
    EncodeReg node line ['L', 'E', 'F', 'T'] e = (4, e) ∧
    EncodeReg node line ['R', 'I', 'G', 'H', 'T'] e = (5, e) ∧
    EncodeReg node line ['U', 'P'] e = (6, e) ∧
    EncodeReg node line ['D', 'O', 'W', 'N'] e = (7, e) ∧
    (∀ r1 ∈ registerNames, ∀ r2 ∈ registerNames,
      (EncodeReg node line r1 e).1 = (EncodeReg node line r2 e).1 → r1 = r2) ∧
    (∀ k, k < 8 → ∃ r ∈ registerNames, EncodeReg node line r e = (k, e)) ∧
    (∀ reg, reg ∉ registerNames →
      (EncodeReg node line reg e).1 = 0 ∧
      (EncodeReg node line reg e).2.failedCompile = true ∧
      (EncodeReg node line reg e).2.stderr =
        e.stderr ++ [Diag.invalidRegister node (line + 1) reg]) ∧
    [] ∉ registerNames := by
  refine ⟨rfl, rfl, rfl, rfl, rfl, rfl, rfl, rfl, ?_, ?_, ?_, by decide⟩
  · intro r1 h1 r2 h2
    simp only [registerNames, List.mem_cons, List.mem_singleton, List.not_mem_nil,
      or_false] at h1 h2
    rcases h1 with h1 | h1 | h1 | h1 | h1 | h1 | h1 | h1 <;>
      rcases h2 with h2 | h2 | h2 | h2 | h2 | h2 | h2 | h2 <;>
      subst h1 <;> subst h2 <;> first | (intro _; rfl) | (intro h; simp [EncodeReg] at h)
  · intro k hk
    interval_cases k
    · exact ⟨['N', 'I', 'L'], by decide, rfl⟩
    · exact ⟨['A', 'C', 'C'], by decide, rfl⟩
    · exact ⟨['A', 'N', 'Y'], by decide, rfl⟩
    · exact ⟨['L', 'A', 'S', 'T'], by decide, rfl⟩
    · exact ⟨['L', 'E', 'F', 'T'], by decide, rfl⟩
    · exact ⟨['R', 'I', 'G', 'H', 'T'], by decide, rfl⟩
    · exact ⟨['U', 'P'], by decide, rfl⟩
    · exact ⟨['D', 'O', 'W', 'N'], by decide, rfl⟩
  · intro reg h
    rw [EncodeReg_of_not_mem node line reg e h]
    exact ⟨rfl, rfl, rfl⟩

/-- Witness for C1: the unknown name `FOO` with a clean error state. -/
theorem C1_EncodeReg_table_witness :
    ['F', 'O', 'O'] ∉ registerNames ∧
    (EncodeReg 0 0 ['F', 'O', 'O'] ⟨false, []⟩).1 = 0 ∧
    (EncodeReg 0 0 ['F', 'O', 'O'] ⟨false, []⟩).2.failedCompile = true ∧
    (EncodeReg 0 0 ['F', 'O', 'O'] ⟨false, []⟩).2.stderr =
      [] ++ [Diag.invalidRegister 0 (0 + 1) ['F', 'O', 'O']] :=
  ⟨by decide, (C1_EncodeReg_table 0 0 ⟨false, []⟩).2.2.2.2.2.2.2.2.2.2.1 ['F', 'O', 'O']
    (by decide)⟩

/-- C2: for every integer `n` in [-1024, 1023], `EncodeSource` on the decimal text of `n`
returns a 12-bit value with bit 11 clear whose bits [10:0], read as 11-bit two's
complement, are `n` again, and records no error. -/
theorem C2_EncodeSource_roundtrip (node : Int) (line : Nat) (e : Err) (n : Int)
    (hlo : -1024 ≤ n) (hhi : n ≤ 1023) :
    (EncodeSource node line (decimalText n) e).1 < 4096 ∧
    (EncodeSource node line (decimalText n) e).1 &&& 0x800 = 0 ∧
    decode11 (EncodeSource node line (decimalText n) e).1 = n ∧
    (EncodeSource node line (decimalText n) e).2 = e := by
  have hnum : sourceIsDigit (decimalText n) = true := by
    rw [sourceIsDigit_eq_numericToken, numericToken_decimalText]
  have hval : EncodeSource node line (decimalText n) e = ((n % 2048).toNat, e) := by
    unfold EncodeSource
    rw [if_pos hnum]
    simp only [atoi_decimalText, toNat_emod_and]
    rw [if_neg (by omega)]
  rw [hval]
  have hm : (n % 2048).toNat < 2048 := by omega
  obtain ⟨b1, b2, b3⟩ := small_word_bits _ hm
  refine ⟨by simp only; omega, b1, ?_, rfl⟩
  unfold decode11
  simp only [b2]
  split
  · rename_i h0
    have := b3.mp h0
    omega
  · rename_i h0
    have : ¬ (n % 2048).toNat < 1024 := fun h => h0 (b3.mpr h)
    omega

/-- Witness for C2: the literal `-5`. -/
theorem C2_EncodeSource_roundtrip_witness :
    (-1024 : Int) ≤ -5 ∧ (-5 : Int) ≤ 1023 ∧
    (EncodeSource 0 0 (decimalText (-5)) ⟨false, []⟩).1 < 4096 ∧
    (EncodeSource 0 0 (decimalText (-5)) ⟨false, []⟩).1 &&& 0x800 = 0 ∧
    decode11 (EncodeSource 0 0 (decimalText (-5)) ⟨false, []⟩).1 = -5 ∧
    (EncodeSource 0 0 (decimalText (-5)) ⟨false, []⟩).2 = ⟨false, []⟩ :=
  ⟨by decide, by decide, C2_EncodeSource_roundtrip 0 0 ⟨false, []⟩ (-5) (by decide) (by decide)⟩

/-- C5 (the code departs from its instruction table): `SUB 0` is encoded as `0x8001`
and `JRO 0` as `0x8002`. Bits [15:12] of both words are `1000` (the table documents `1001`
and `1010`), and bits [11:0] are 1 and 2 while the B-field of `0` is 0. -/
theorem C5_SUB_JRO_encoding (node : Int) (line : Nat) (e : Err) :
    GenCommand node line ['S', 'U', 'B'] ['0'] [] e = (0x8001, e) ∧
    GenCommand node line ['J', 'R', 'O'] ['0'] [] e = (0x8002, e) ∧
    EncodeSource node line ['0'] e = (0, e) ∧
    (GenCommand node line ['S', 'U', 'B'] ['0'] [] e).1 >>> 12 = 0x8 ∧
    (GenCommand node line ['J', 'R', 'O'] ['0'] [] e).1 >>> 12 = 0x8 ∧
    (GenCommand node line ['S', 'U', 'B'] ['0'] [] e).1 &&& 0xFFF = 1 ∧
    (GenCommand node line ['J', 'R', 'O'] ['0'] [] e).1 &&& 0xFFF = 2 := by
  have hs : EncodeSource node line ['0'] e = (0, e) := by
    have h1 : sourceIsDigit ['0'] = true := by decide
    have h2 : atoi ['0'] = 0 := by decide
    simp [EncodeSource, h1, h2]
  have hsub : GenCommand node line ['S', 'U', 'B'] ['0'] [] e = (0x8001, e) := by
    simp [GenCommand, hs, u16]
  have hjro : GenCommand node line ['J', 'R', 'O'] ['0'] [] e = (0x8002, e) := by
    simp [GenCommand, hs, u16]
  rw [hsub, hjro]
  refine ⟨rfl, rfl, hs, ?_, ?_, ?_, ?_⟩
  · show 0x8001 >>> 12 = 0x8; decide
  · show 0x8002 >>> 12 = 0x8; decide
  · show 0x8001 &&& 0xFFF = 1; decide
  · show 0x8002 &&& 0xFFF = 2; decide

/-- C6: `GenCommand` on `MOV src, dst` returns `(EncodeReg(dst) << 12) | EncodeSource(src)`:
bit 15 is 0, bits [14:12] are the register code of `dst`, bits [11:0] the source field. -/
theorem C6_GenCommand_MOV (node : Int) (line : Nat) (src dst : CStr) (e : Err) :
    (GenCommand node line ['M', 'O', 'V'] src dst e).1 =
      ((EncodeReg node line dst e).1 <<< 12) ||| (EncodeSource node line src e).1 ∧
    (GenCommand node line ['M', 'O', 'V'] src dst e).1 &&& 0x8000 = 0 ∧
    ((GenCommand node line ['M', 'O', 'V'] src dst e).1 >>> 12) &&& 0x7 =
      (EncodeReg node line dst e).1 ∧
    (GenCommand node line ['M', 'O', 'V'] src dst e).1 &&& 0xFFF =
      (EncodeSource node line src e).1 := by
  have hp := pack_fields (EncodeReg node line dst e).1 (EncodeSource node line src e).1
    (EncodeReg_lt _ _ _ _) (EncodeSource_lt _ _ _ _)
  have hw : (GenCommand node line ['M', 'O', 'V'] src dst e).1 =
      ((EncodeReg node line dst e).1 <<< 12) ||| (EncodeSource node line src e).1 := by
    simp only [GenCommand, if_true]
    rw [EncodeReg_fst_indep node line dst _ e]
    exact hp.1
  rw [hw]
  exact ⟨rfl, hp.2.1, hp.2.2.1, hp.2.2.2⟩

/-- C7: whatever the operand tokens, `GenCommand` returns `0xC000`, `0xC400`, `0xC800`,
`0xCC00`, `0xD000` for JMP, JEZ, JNZ, JGZ, JLZ, then `0xE000`, `0xE200`, `0xE400` for NEG,
SAV, SWP and `0x0000` for NOP, with the error state untouched; the target bits [9:6] of
the five jump words are 0. -/
theorem C7_GenCommand_fixed_words (node : Int) (line : Nat) (arg0 arg1 : CStr) (e : Err) :
    GenCommand node line ['J', 'M', 'P'] arg0 arg1 e = (0xC000, e) ∧
    GenCommand node line ['J', 'E', 'Z'] arg0 arg1 e = (0xC400, e) ∧
    GenCommand node line ['J', 'N', 'Z'] arg0 arg1 e = (0xC800, e) ∧
    GenCommand node line ['J', 'G', 'Z'] arg0 arg1 e = (0xCC00, e) ∧
    GenCommand node line ['J', 'L', 'Z'] arg0 arg1 e = (0xD000, e) ∧
    GenCommand node line ['N', 'E', 'G'] arg0 arg1 e = (0xE000, e) ∧
    GenCommand node line ['S', 'A', 'V'] arg0 arg1 e = (0xE200, e) ∧
    GenCommand node line ['S', 'W', 'P'] arg0 arg1 e = (0xE400, e) ∧
    GenCommand node line ['N', 'O', 'P'] arg0 arg1 e = (0x0000, e) ∧
    ((GenCommand node line ['J', 'M', 'P'] arg0 arg1 e).1 >>> 6) &&& 0xF = 0 ∧
    ((GenCommand node line ['J', 'E', 'Z'] arg0 arg1 e).1 >>> 6) &&& 0xF = 0 ∧
    ((GenCommand node line ['J', 'N', 'Z'] arg0 arg1 e).1 >>> 6) &&& 0xF = 0 ∧
    ((GenCommand node line ['J', 'G', 'Z'] arg0 arg1 e).1 >>> 6) &&& 0xF = 0 ∧
    ((GenCommand node line ['J', 'L', 'Z'] arg0 arg1 e).1 >>> 6) &&& 0xF = 0 := by
  have h1 : GenCommand node line ['J', 'M', 'P'] arg0 arg1 e = (0xC000, e) := rfl
  have h2 : GenCommand node line ['J', 'E', 'Z'] arg0 arg1 e = (0xC400, e) := rfl
  have h3 : GenCommand node line ['J', 'N', 'Z'] arg0 arg1 e = (0xC800, e) := rfl
  have h4 : GenCommand node line ['J', 'G', 'Z'] arg0 arg1 e = (0xCC00, e) := rfl
  have h5 : GenCommand node line ['J', 'L', 'Z'] arg0 arg1 e = (0xD000, e) := rfl
  rw [h1, h2, h3, h4, h5]
  refine ⟨rfl, rfl, rfl, rfl, rfl, rfl, rfl, rfl, rfl, ?_, ?_, ?_, ?_, ?_⟩
  · show (0xC000 >>> 6) &&& 0xF = 0; decide
  · show (0xC400 >>> 6) &&& 0xF = 0; decide
  · show (0xC800 >>> 6) &&& 0xF = 0; decide
  · show (0xCC00 >>> 6) &&& 0xF = 0; decide
  · show (0xD000 >>> 6) &&& 0xF = 0; decide

/-- C8: for a numeric token (digits, optionally after one leading `-`) whose value
`v = atoi token` fits a C `int`, `EncodeSource` takes the numeric branch and returns
`v mod 2048` (bit 11 clear); it records a range error, setting `failedCompile`, when
`v > 1023` or `v < -1024`, and leaves the error state as it was otherwise. The token
`2000` gives `0x7D0` with the range error. -/
theorem C8_EncodeSource_numeric (node : Int) (line : Nat) (tok : CStr) (e : Err)
    (hnum : numericToken tok = true)
    (_hfit : -2147483648 ≤ atoi tok ∧ atoi tok ≤ 2147483647) :
    sourceIsDigit tok = true ∧
    (EncodeSource node line tok e).1 = (atoi tok % 2048).toNat ∧
    (EncodeSource node line tok e).1 &&& 0x800 = 0 ∧
    (atoi tok > 1023 ∨ atoi tok < -1024 →
      (EncodeSource node line tok e).2 =
        e.fail (Diag.literalOutOfRange node (line + 1) (atoi tok))) ∧
    (¬ (atoi tok > 1023 ∨ atoi tok < -1024) → (EncodeSource node line tok e).2 = e) ∧
    (e.failedCompile = false →
      ((EncodeSource node line tok e).2.failedCompile = true ↔
        (atoi tok > 1023 ∨ atoi tok < -1024))) ∧
    EncodeSource node line ['2', '0', '0', '0'] e =
      (0x7D0, e.fail (Diag.literalOutOfRange node (line + 1) 2000)) := by
  have hcls : sourceIsDigit tok = true := by rw [sourceIsDigit_eq_numericToken, hnum]
  have hval : EncodeSource node line tok e = ((atoi tok % 2048).toNat,
      if atoi tok > 1023 ∨ atoi tok < -1024
        then e.fail (Diag.literalOutOfRange node (line + 1) (atoi tok)) else e) := by
    unfold EncodeSource
    rw [if_pos hcls]
    simp only [toNat_emod_and]
  have h2000 : EncodeSource node line ['2', '0', '0', '0'] e =
      (0x7D0, e.fail (Diag.literalOutOfRange node (line + 1) 2000)) := by
    have h1 : sourceIsDigit ['2', '0', '0', '0'] = true := by decide
    have h2 : atoi ['2', '0', '0', '0'] = 2000 := by decide
    unfold EncodeSource
    rw [if_pos h1]
    simp only [toNat_emod_and, h2]
    rw [if_pos (by decide)]
    rfl
  rw [hval]
  refine ⟨hcls, rfl, (small_word_bits _ (by omega)).1, ?_, ?_, ?_, h2000⟩
  · intro h; simp only [if_pos h]
  · intro h; simp only [if_neg h]
  · intro he
    by_cases h : atoi tok > 1023 ∨ atoi tok < -1024
    · simp only [if_pos h, Err.fail, true_iff]
      exact h
    · simp only [if_neg h, he]
      exact ⟨fun hh => absurd hh (by decide), fun hh => absurd hh h⟩

/-- Witness for C8: the token `-2000`. -/
theorem C8_EncodeSource_numeric_witness :
    numericToken ['-', '2', '0', '0', '0'] = true ∧
    (-2147483648 ≤ atoi ['-', '2', '0', '0', '0'] ∧ atoi ['-', '2', '0', '0', '0'] ≤ 2147483647) ∧
    (EncodeSource 0 0 ['-', '2', '0', '0', '0'] ⟨false, []⟩).1 =
      (atoi ['-', '2', '0', '0', '0'] % 2048).toNat :=
  ⟨by decide, by decide,
    (C8_EncodeSource_numeric 0 0 ['-', '2', '0', '0', '0'] ⟨false, []⟩ (by decide)
      (by decide)).2.1⟩

/-- C9: for a token that is not numeric (empty, or holding a character that is neither a
decimal digit nor a `-` in first position), `EncodeSource` returns
`0x800 | (EncodeReg(token) << 8)`: bit 11 set, the register code in bits [10:8], bits
[7:0] zero. The error state is that of `EncodeReg`: untouched for the eight register
names, one unknown-register error otherwise. The empty token gives `0x800` with that
error. -/
theorem C9_EncodeSource_register (node : Int) (line : Nat) (tok : CStr) (e : Err)
    (hnon : tok = [] ∨
      ∃ p c, tok[p]? = some c ∧ isdigit c = false ∧ ¬ (p = 0 ∧ c = '-')) :
    sourceIsDigit tok = false ∧
    (EncodeSource node line tok e).1 = 0x800 ||| ((EncodeReg node line tok e).1 <<< 8) ∧
    (EncodeSource node line tok e).1 &&& 0x800 = 0x800 ∧
    ((EncodeSource node line tok e).1 >>> 8) &&& 0x7 = (EncodeReg node line tok e).1 ∧
    (EncodeSource node line tok e).1 &&& 0xFF = 0 ∧
    (EncodeSource node line tok e).2 = (EncodeReg node line tok e).2 ∧
    (tok ∈ registerNames → (EncodeSource node line tok e).2 = e) ∧
    (tok ∉ registerNames → (EncodeSource node line tok e).2 =
      e.fail (Diag.invalidRegister node (line + 1) tok)) ∧
    EncodeSource node line [] e = (0x800, e.fail (Diag.invalidRegister node (line + 1) [])) := by
  have hcls : sourceIsDigit tok = false := by
    rw [sourceIsDigit_eq_numericToken, numericToken_false_of tok hnon]
  have hlt := EncodeReg_lt node line tok e
  have hval : EncodeSource node line tok e =
      (0x800 ||| ((EncodeReg node line tok e).1 <<< 8), (EncodeReg node line tok e).2) := by
    unfold EncodeSource
    rw [if_neg (by simp [hcls])]
    simp only [regField_eq _ hlt]
  have hb := regField_bits _ hlt
  have hempty : EncodeSource node line [] e =
      (0x800, e.fail (Diag.invalidRegister node (line + 1) [])) := by
    unfold EncodeSource
    rw [if_neg (by decide)]
    simp only [EncodeReg_of_not_mem node line [] e (by decide)]
    rfl
  rw [hval]
  refine ⟨hcls, rfl, hb.1, hb.2.1, hb.2.2.1, rfl, ?_, ?_, hempty⟩
  · intro h; exact EncodeReg_of_mem node line tok e h
  · intro h
    show (EncodeReg node line tok e).2 = _
    rw [EncodeReg_of_not_mem node line tok e h]

/-- Witness for C9: the token `ACC`, whose first character is not a digit. -/
theorem C9_EncodeSource_register_witness :
    (['A', 'C', 'C'] = [] ∨ ∃ p c, (['A', 'C', 'C'] : CStr)[p]? = some c ∧
      isdigit c = false ∧ ¬ (p = 0 ∧ c = '-')) ∧
    (EncodeSource 0 0 ['A', 'C', 'C'] ⟨false, []⟩).1 =
      0x800 ||| ((EncodeReg 0 0 ['A', 'C', 'C'] ⟨false, []⟩).1 <<< 8) :=
  ⟨Or.inr ⟨0, 'A', rfl, by decide, by decide⟩,
    (C9_EncodeSource_register 0 0 ['A', 'C', 'C'] ⟨false, []⟩
      (Or.inr ⟨0, 'A', rfl, by decide, by decide⟩)).2.1⟩

/-! ## Label resolution -/

theorem labelScan_spec (labels : Nat → CStr) (t : CStr) : ∀ (n j : Nat),
    j ≤ labelScan labels t n j ∧ labelScan labels t n j ≤ j + n ∧
    (∀ x, j ≤ x → x < labelScan labels t n j → labels x ≠ t) ∧
    (labelScan labels t n j < j + n → labels (labelScan labels t n j) = t) := by
  intro n
  induction n with
  | zero =>
    intro j
    simp only [labelScan]
    exact ⟨le_refl _, by omega, fun x h1 h2 => by omega, fun h => by omega⟩
  | succ n ih =>
    intro j
    simp only [labelScan]
    split
    · rename_i h
      exact ⟨le_refl _, by omega, fun x h1 h2 => by omega, fun _ => h⟩
    · rename_i h
      obtain ⟨a1, a2, a3, a4⟩ := ih (j + 1)
      refine ⟨by omega, by omega, ?_, fun hlt => a4 (by omega)⟩
      intro x h1 h2
      by_cases hx : x = j
      · rw [hx]; exact h
      · exact a3 x (by omega) h2

/-- When some label matches, the scan stops at the lowest matching index. -/
theorem labelScan_found (labels : Nat → CStr) (t : CStr)
    (hex : ∃ j, j < 16 ∧ labels j = t) :
    labelScan labels t 16 0 < 16 ∧ labels (labelScan labels t 16 0) = t ∧
    ∀ j, j < labelScan labels t 16 0 → labels j ≠ t := by
  obtain ⟨a1, a2, a3, a4⟩ := labelScan_spec labels t 16 0
  obtain ⟨j, hj, hl⟩ := hex
  have hlt : labelScan labels t 16 0 < 16 := by
    by_contra hge
    exact a3 j (Nat.zero_le _) (by omega) hl
  exact ⟨hlt, a4 (by omega), fun x hx => a3 x (Nat.zero_le _) hx⟩

/-- The scan reaches 16 exactly when no label matches. -/
theorem labelScan_eq_16_iff (labels : Nat → CStr) (t : CStr) :
    labelScan labels t 16 0 = 16 ↔ ∀ j, j < 16 → labels j ≠ t := by
  obtain ⟨a1, a2, a3, a4⟩ := labelScan_spec labels t 16 0
  constructor
  · intro h j hj
    exact a3 j (Nat.zero_le _) (by omega)
  · intro h
    by_contra hne
    exact h _ (by omega) (a4 (by omega))

/-- The scan result is the lowest matching index, whatever name it has. -/
theorem labelScan_eq_of_lowest (labels : Nat → CStr) (t : CStr) (k : Nat) (hk : k < 16)
    (hl : labels k = t) (hmin : ∀ j, j < k → labels j ≠ t) :
    labelScan labels t 16 0 = k := by
  obtain ⟨b1, b2, b3⟩ := labelScan_found labels t ⟨k, hk, hl⟩
  by_contra hne
  rcases Nat.lt_or_gt_of_ne hne with h | h
  · exact hmin _ h b2
  · exact b3 k h hl

theorem encodeLabelsStep_fst (node : Int) (labels jump_labels : Nat → CStr)
    (c : Nat → Nat) (e : Err) (i x : Nat) :
    (encodeLabelsStep node labels jump_labels (c, e) i).1 x =
      if x = i then resolvedWord labels jump_labels (c i) i else c x := by
  unfold encodeLabelsStep resolvedWord
  by_cases hj : c i &&& 0xE000 = 0xC000
  · by_cases hs : labelScan labels (jump_labels i) 16 0 = 16
    · simp only [hj, hs, if_true]
      split
      · rename_i hx; rw [hx]
      · rfl
    · simp only [hj, hs, if_true, if_false]
  · simp only [hj, if_false]
    split
    · rename_i hx; rw [hx]
    · rfl

theorem encodeLabelsStep_stderr (node : Int) (labels jump_labels : Nat → CStr)
    (c : Nat → Nat) (e : Err) (i : Nat) :
    (encodeLabelsStep node labels jump_labels (c, e) i).2.stderr =
      e.stderr ++ slotDiags node labels jump_labels (c i) i := by
  unfold encodeLabelsStep slotDiags
  by_cases hj : c i &&& 0xE000 = 0xC000
  · by_cases hs : labelScan labels (jump_labels i) 16 0 = 16
    · simp only [hj, hs, if_true, and_self, Err.fail]
    · simp only [hj, hs, if_true, if_false, and_false, List.append_nil]
  · simp only [hj, if_false, false_and, List.append_nil]

theorem labelDiags_congr (node : Int) (labels jump_labels : Nat → CStr) (c c' : Nat → Nat)
    (l : List Nat) (h : ∀ x ∈ l, c' x = c x) :
    labelDiags node labels jump_labels c' l = labelDiags node labels jump_labels c l := by
  induction l with
  | nil => rfl
  | cons i l ih =>
    simp only [labelDiags]
    rw [h i (List.mem_cons_self _ _), ih (fun x hx => h x (List.mem_cons_of_mem _ hx))]

theorem encodeLabels_fold (node : Int) (labels jump_labels : Nat → CStr) (l : List Nat) :
    ∀ (c : Nat → Nat) (e : Err), l.Nodup →
    (∀ x, (l.foldl (encodeLabelsStep node labels jump_labels) (c, e)).1 x =
      if x ∈ l then resolvedWord labels jump_labels (c x) x else c x) ∧
    (l.foldl (encodeLabelsStep node labels jump_labels) (c, e)).2.stderr =
      e.stderr ++ labelDiags node labels jump_labels c l := by
  induction l with
  | nil => intro c e _; simp [labelDiags]
  | cons i l ih =>
    intro c e hnd
    obtain ⟨hi, hnd'⟩ := List.nodup_cons.mp hnd
    have hstep : encodeLabelsStep node labels jump_labels (c, e) i =
        ((encodeLabelsStep node labels jump_labels (c, e) i).1,
          (encodeLabelsStep node labels jump_labels (c, e) i).2) := rfl
    rw [List.foldl_cons, hstep]
    obtain ⟨h1, h2⟩ := ih (encodeLabelsStep node labels jump_labels (c, e) i).1
      (encodeLabelsStep node labels jump_labels (c, e) i).2 hnd'
    constructor
    · intro x
      rw [h1 x]
      by_cases hx : x ∈ l
      · have hxi : x ≠ i := fun h => hi (h ▸ hx)
        simp only [hx, if_true, List.mem_cons, or_true, encodeLabelsStep_fst, if_neg hxi]
      · simp only [hx, if_false, List.mem_cons, or_false, encodeLabelsStep_fst]
        by_cases hxi : x = i
        · rw [hxi]
        · simp only [if_neg hxi]
    · rw [h2, encodeLabelsStep_stderr, List.append_assoc]
      congr 1
      simp only [labelDiags]
      congr 1
      apply labelDiags_congr
      intro x hx
      have hxi : x ≠ i := fun h => hi (h ▸ hx)
      rw [encodeLabelsStep_fst, if_neg hxi]

/-- Slot by slot description of `EncodeLabels`. -/
theorem EncodeLabels_slot (node : Int) (commands : Nat → Nat) (labels jump_labels : Nat → CStr)
    (e : Err) :
    (∀ x, (EncodeLabels node commands labels jump_labels e).1 x =
      if x < 16 then resolvedWord labels jump_labels (commands x) x else commands x) ∧
    (EncodeLabels node commands labels jump_labels e).2.stderr =
      e.stderr ++ labelDiags node labels jump_labels commands (List.range 16) := by
  obtain ⟨h1, h2⟩ := encodeLabels_fold node labels jump_labels (List.range 16) commands e
    (List.nodup_range 16)
  refine ⟨fun x => ?_, h2⟩
  rw [EncodeLabels, h1 x]
  simp only [List.mem_range]

theorem labelDiags_not_mem (node : Int) (labels jump_labels : Nat → CStr) (c : Nat → Nat)
    (i : Nat) (hi : slotDiags node labels jump_labels (c i) i = []) (l : List Nat) (lbl : CStr) :
    Diag.labelNotFound node (i + 1) lbl ∉ labelDiags node labels jump_labels c l := by
  induction l with
  | nil => simp [labelDiags]
  | cons x l ih =>
    simp only [labelDiags, List.mem_append, not_or]
    refine ⟨?_, ih⟩
    by_cases hx : x = i
    · rw [hx, hi]; simp
    · unfold slotDiags
      split
      · simp only [List.mem_singleton, Diag.labelNotFound.injEq, not_and]
        intro _ h; omega
      · simp

/-! ## Bit fields of a patched jump word -/

theorem testBit_small (j b : Nat) (hj : j < 16) (hb : 4 ≤ b) : j.testBit b = false := by
  apply Nat.testBit_lt_two_pow
  calc j < 2 ^ 4 := hj
    _ ≤ 2 ^ b := Nat.pow_le_pow_right (by decide) hb

theorem patch_target (w j : Nat) (hj : j < 16) :
    ((w ||| (j <<< 6)) >>> 6) &&& 0xF = ((w >>> 6) &&& 0xF) ||| j := by
  apply Nat.eq_of_testBit_eq
  intro b
  have hF : (0xF : Nat) = 2 ^ 4 - 1 := by norm_num
  simp only [hF, Nat.testBit_and, Nat.testBit_or, Nat.testBit_shiftRight, Nat.testBit_shiftLeft,
    Nat.testBit_two_pow_sub_one]
  have h1 : 6 + b - 6 = b := by omega
  have h2 : 6 + b ≥ 6 := by omega
  simp only [h1, h2, decide_True, Bool.true_and]
  by_cases hb : b < 4
  · simp [hb]
  · simp [hb, testBit_small j b hj (by omega)]

theorem patch_other_bits (w j b : Nat) (hj : j < 16) (hb : b < 6 ∨ 9 < b) :
    (w ||| (j <<< 6)).testBit b = w.testBit b := by
  simp only [Nat.testBit_or, Nat.testBit_shiftLeft]
  rcases hb with hb | hb
  · have : ¬ b ≥ 6 := by omega
    simp [this]
  · rw [testBit_small j (b - 6) hj (by omega)]
    simp

theorem patch_u16 (w j : Nat) (hw : w < 65536) (hj : j < 16) :
    u16 (w ||| (j <<< 6)) = w ||| (j <<< 6) := by
  have h1 : j <<< 6 < 2 ^ 16 := by rw [Nat.shiftLeft_eq]; omega
  have := Nat.or_lt_two_pow (by simpa using hw) h1
  unfold u16
  omega

/-- C3: let slot `i` of the command array hold a jump-class 16-bit word whose target bits
[9:6] are 0 and whose deferred jump-label text equals some entry of the label table. After
`EncodeLabels`, bits [9:6] of slot `i` hold the lowest index `j` in 0..15 with
`labels[j]` equal to that text, every other bit of the word is as before, every word of
the array that is not jump-class is unchanged, and no "label not found" diagnostic is
printed for slot `i`. -/
theorem C3_EncodeLabels_lowest_match (node : Int) (commands : Nat → Nat)
    (labels jump_labels : Nat → CStr) (e : Err) (i : Nat)
    (hi : i < 16) (hw : commands i < 65536)
    (hjump : commands i &&& 0xE000 = 0xC000)
    (hzero : (commands i >>> 6) &&& 0xF = 0)
    (hex : ∃ j, j < 16 ∧ labels j = jump_labels i) :
    ∃ j, j < 16 ∧ labels j = jump_labels i ∧ (∀ j', j' < j → labels j' ≠ jump_labels i) ∧
      (EncodeLabels node commands labels jump_labels e).1 i = commands i ||| (j <<< 6) ∧
      ((EncodeLabels node commands labels jump_labels e).1 i >>> 6) &&& 0xF = j ∧
      (∀ b, b < 6 ∨ 9 < b →
        ((EncodeLabels node commands labels jump_labels e).1 i).testBit b =
          (commands i).testBit b) ∧
      (∀ x, commands x &&& 0xE000 ≠ 0xC000 →
        (EncodeLabels node commands labels jump_labels e).1 x = commands x) ∧
      ∃ added, (EncodeLabels node commands labels jump_labels e).2.stderr = e.stderr ++ added ∧
        ∀ lbl, Diag.labelNotFound node (i + 1) lbl ∉ added := by
  obtain ⟨hlt, hl, hmin⟩ := labelScan_found labels (jump_labels i) hex
  obtain ⟨hs1, hs2⟩ := EncodeLabels_slot node commands labels jump_labels e
  have hne : labelScan labels (jump_labels i) 16 0 ≠ 16 := by omega
  have hword : (EncodeLabels node commands labels jump_labels e).1 i =
      commands i ||| (labelScan labels (jump_labels i) 16 0 <<< 6) := by
    rw [hs1 i, if_pos hi, resolvedWord, if_pos hjump, if_neg hne, patch_u16 _ _ hw hlt]
  refine ⟨labelScan labels (jump_labels i) 16 0, hlt, hl, hmin, hword, ?_, ?_, ?_, ?_⟩
  · rw [hword, patch_target _ _ hlt, hzero, Nat.zero_or]
  · intro b hb
    rw [hword, patch_other_bits _ _ _ hlt hb]
  · intro x hx
    rw [hs1 x, resolvedWord, if_neg hx]
    simp
  · refine ⟨_, hs2, fun lbl => ?_⟩
    apply labelDiags_not_mem
    unfold slotDiags
    rw [if_neg (fun h => hne h.2)]

/-- Witness for C3: slot 0 jumps to `L`, which labels both slot 2 and slot 5. -/
theorem C3_EncodeLabels_lowest_match_witness :
    (0 < 16 ∧ (fun x => if x = 0 then 0xC400 else 0) 0 < 65536 ∧
      (fun x => if x = 0 then 0xC400 else 0) 0 &&& 0xE000 = 0xC000 ∧
      ((fun x => if x = 0 then 0xC400 else 0) 0 >>> 6) &&& 0xF = 0) ∧
    ∃ j, j < 16 ∧
      (fun x : Nat => if x = 2 ∨ x = 5 then ['L'] else []) j = (fun _ : Nat => ['L']) 0 ∧
      (∀ j', j' < j →
        (fun x : Nat => if x = 2 ∨ x = 5 then ['L'] else []) j' ≠ (fun _ : Nat => ['L']) 0) ∧
      (EncodeLabels 7 (fun x => if x = 0 then 0xC400 else 0)
        (fun x => if x = 2 ∨ x = 5 then ['L'] else []) (fun _ => ['L']) ⟨false, []⟩).1 0 =
        (fun x => if x = 0 then 0xC400 else 0) 0 ||| (j <<< 6) ∧
      ((EncodeLabels 7 (fun x => if x = 0 then 0xC400 else 0)
        (fun x => if x = 2 ∨ x = 5 then ['L'] else []) (fun _ => ['L']) ⟨false, []⟩).1 0 >>> 6)
        &&& 0xF = j :=
  ⟨by decide,
    have h := C3_EncodeLabels_lowest_match 7 (fun x => if x = 0 then 0xC400 else 0)
      (fun x => if x = 2 ∨ x = 5 then ['L'] else []) (fun _ => ['L']) ⟨false, []⟩ 0
      (by decide) (by decide) (by decide) (by decide) ⟨2, by decide, by decide⟩
    h.imp fun _ hj => ⟨hj.1, hj.2.1, hj.2.2.1, hj.2.2.2.1, hj.2.2.2.2.1⟩⟩

/-! ## The line loop reaches the end of input -/

theorem fgetsChars_rest_le (n : Nat) : ∀ inp : List Char,
    (fgetsChars n inp).2.length ≤ inp.length := by
  induction n with
  | zero => intro inp; simp [fgetsChars]
  | succ n ih =>
    intro inp
    cases inp with
    | nil => simp [fgetsChars]
    | cons c cs =>
      simp only [fgetsChars]
      split
      · simp
      · have := ih cs
        simp only [List.length_cons]
        omega

theorem fgetsChars_rest_lt (n : Nat) (c : Char) (cs : List Char) :
    (fgetsChars (n + 1) (c :: cs)).2.length < (c :: cs).length := by
  simp only [fgetsChars]
  split
  · simp
  · have := fgetsChars_rest_le n cs
    simp only [List.length_cons]
    omega

/-- Once the bound covers the length of the input, a larger bound changes nothing: the
loop of `main` stops because `fgets` reports the end of input. -/
theorem mainLoop_fuel (fuel : Nat) : ∀ (inp : List Char) (d : Driver), inp.length ≤ fuel →
    mainLoop (fuel + 1) inp d = mainLoop fuel inp d := by
  induction fuel with
  | zero =>
    intro inp d h
    have : inp = [] := List.length_eq_zero.mp (by omega)
    subst this
    rfl
  | succ fuel ih =>
    intro inp d h
    cases inp with
    | nil => rfl
    | cons c cs =>
      have hlt : (fgetsChars 31 (c :: cs)).2.length < (c :: cs).length :=
        fgetsChars_rest_lt 30 c cs
      have hf : fgets 32 (c :: cs) = some (fgetsChars 31 (c :: cs)) := rfl
      rw [mainLoop, mainLoop, hf]
      simp only
      exact ih _ _ (by simp only [List.length_cons] at h hlt; omega)

/-! ## Idle slots -/

/-- C4 (the code departs from its own comment "Default is to jump to start"): the source
`@3`, `start: JMP start` has one code line, yet slots 1..15 are emitted as `0xC040`
(jump to slot 1), not as the idle word `0xC000`; and the node `@0`, `foo:` with no code
line at all emits sixteen words `0xC040`. `EncodeLabels` treats every idle slot as a jump
to the empty label and patches it with the lowest slot whose label entry is empty. -/
theorem C4_idle_slots_are_patched :
    words (compile "@3\nstart: JMP start\n".toList).2.commands =
      [0xC000, 0xC040, 0xC040, 0xC040, 0xC040, 0xC040, 0xC040, 0xC040,
       0xC040, 0xC040, 0xC040, 0xC040, 0xC040, 0xC040, 0xC040, 0xC040] ∧
    (compile "@3\nstart: JMP start\n".toList).2.stdout =
      Out.header 3 :: Out.word 0x00 0xC0 false ::
        (List.range 15).map (fun j => Out.word 0x40 0xC0 (decide ((j + 1) &&& 0x3 = 0x3))) ∧
    (compile "@3\nstart: JMP start\n".toList).2.err = ⟨false, []⟩ ∧
    words (compile "@0\nfoo:\n".toList).2.commands =
      [0xC040, 0xC040, 0xC040, 0xC040, 0xC040, 0xC040, 0xC040, 0xC040,
       0xC040, 0xC040, 0xC040, 0xC040, 0xC040, 0xC040, 0xC040, 0xC040] ∧
    (compile "@0\nfoo:\n".toList).2.err = ⟨false, []⟩ := by
  refine ⟨by decide, by decide, by decide, by decide, by decide⟩

/-! ## Frame lemmas for the line scanner and the slot fill -/

theorem scanChar_labels_frame (node : Int) (lineNum c : Nat) (s : Scan) (ch : Char) (x : Nat)
    (hx : x ≠ c) : (scanChar node lineNum c s ch).labels x = s.labels x := by
  unfold scanChar
  split
  · simp only [if_neg hx]
  · split
    · rfl
    · split
      · simp only
        repeat' split
        all_goals rfl
      · rfl

theorem scanLine_labels_frame (node : Int) (lineNum c : Nat) (line : CStr) (x : Nat)
    (hx : x ≠ c) : ∀ s : Scan, (scanLine node lineNum c line s).labels x = s.labels x := by
  induction line with
  | nil => intro s; rfl
  | cons ch cs ih =>
    intro s
    rw [scanLine]
    split
    · rfl
    · rw [ih, scanChar_labels_frame _ _ _ _ _ _ hx]

theorem scanOf_labels_frame (d : Driver) (line : CStr) (x : Nat) (hx : x ≠ d.cmdLineNum) :
    (scanOf d line).labels x = d.labels x := by
  unfold scanOf
  rw [scanLine_labels_frame _ _ _ _ _ hx]

theorem codeLine_labels (d : Driver) (line : CStr) :
    (codeLine d line).labels = (scanOf d line).labels := by
  unfold codeLine
  simp only
  split <;> rfl

theorem codeLine_node (d : Driver) (line : CStr) :
    (codeLine d line).node = d.node ∧ (codeLine d line).nodeProcessed = d.nodeProcessed := by
  unfold codeLine
  simp only
  split <;> exact ⟨rfl, rfl⟩

/-- A line without mnemonic leaves the slots, the jump labels and the counter alone. -/
theorem codeLine_no_cmd (d : Driver) (line : CStr) (h : (scanOf d line).cmd = []) :
    (codeLine d line).commands = d.commands ∧
    (codeLine d line).jump_labels = d.jump_labels ∧
    (codeLine d line).cmdLineNum = d.cmdLineNum := by
  unfold codeLine
  simp only [h, ne_eq, not_true_eq_false, if_false, and_self]

/-- A line with a mnemonic, processed while fewer than 16 code lines are stored, fills
the slot at the counter and advances the counter. -/
theorem codeLine_cmd (d : Driver) (line : CStr) (h : (scanOf d line).cmd ≠ [])
    (hc : d.cmdLineNum < 16) :
    (codeLine d line).cmdLineNum = d.cmdLineNum + 1 ∧
    (∀ x, (codeLine d line).commands x =
      if x = d.cmdLineNum then
        (GenCommand d.node d.lineNum (scanOf d line).cmd (scanOf d line).arg0
          (scanOf d line).arg1 (scanOf d line).err).1
      else d.commands x) ∧
    (∀ x, x ≠ d.cmdLineNum → (codeLine d line).jump_labels x = d.jump_labels x) ∧
    ((GenCommand d.node d.lineNum (scanOf d line).cmd (scanOf d line).arg0
        (scanOf d line).arg1 (scanOf d line).err).1 &&& 0xE000 = 0xC000 →
      (codeLine d line).jump_labels d.cmdLineNum = (scanOf d line).arg0) := by
  have hover : decide (d.cmdLineNum ≥ 16) = false := by simp; omega
  unfold codeLine
  simp only [h, ne_eq, not_false_eq_true, if_true, hover, Bool.false_eq_true, if_false]
  refine ⟨trivial, fun _ => trivial, ?_, ?_⟩
  · intro x hx
    split
    · simp only [if_neg hx]
    · rfl
  · intro hj
    simp only [hj, if_true]

theorem and_E000 (w : Nat) : w &&& 0xE000 = ((w >>> 13) &&& 0x7) <<< 13 := by
  apply Nat.eq_of_testBit_eq
  intro i
  have hE : (0xE000 : Nat) = 0x7 <<< 13 := by decide
  rw [hE]
  simp only [Nat.testBit_and, Nat.testBit_shiftLeft, Nat.testBit_shiftRight]
  by_cases hi : i ≥ 13
  · have : 13 + (i - 13) = i := by omega
    simp [hi, this]
  · simp [hi]

/-- The test `(w & 0xE000) == 0xC000` reads bits [15:13] of `w` as `110`. -/
theorem jumpClass_iff (w : Nat) : w &&& 0xE000 = 0xC000 ↔ w / 8192 % 8 = 6 := by
  have h7 : (0x7 : Nat) = 2 ^ 3 - 1 := by norm_num
  rw [and_E000, h7, Nat.and_pow_two_sub_one_eq_mod, Nat.shiftRight_eq_div_pow, Nat.shiftLeft_eq]
  omega

theorem or_8000 (k s : Nat) (hk : k < 4096) (hs : s < 4096) :
    u16 ((0x8000 ||| k) ||| s) / 8192 % 8 = 4 := by
  have ht : k ||| s < 2 ^ 12 := Nat.or_lt_two_pow (by omega) (by omega)
  have h1 : 2 ^ 15 * 1 + (k ||| s) = 2 ^ 15 * 1 ||| (k ||| s) :=
    Nat.mul_add_lt_is_or (by omega) 1
  have h2 : (0x8000 ||| k) ||| s = 0x8000 + (k ||| s) := by
    rw [Nat.or_assoc]
    simpa using h1.symm
  rw [h2]
  unfold u16
  omega

theorem mov_word_lt (a b : Nat) (ha : a < 8) (hb : b < 4096) :
    u16 ((0x0000 ||| b) ||| (a <<< 12)) < 0x8000 := by
  rw [(pack_fields a b ha hb).1]
  have h1 : a <<< 12 < 2 ^ 15 := by rw [Nat.shiftLeft_eq]; omega
  exact Nat.or_lt_two_pow h1 (by omega)

/-- C19: the word `GenCommand` returns passes the jump test `(word & 0xE000) == 0xC000`
exactly when the mnemonic is JMP, JEZ, JNZ, JGZ or JLZ, for all operand tokens; so MOV,
ADD, SUB, JRO, NEG, SAV, SWP, NOP and every unknown mnemonic give a word that fails the
test. -/
theorem C19_jump_class_iff (node : Int) (line : Nat) (cmd arg0 arg1 : CStr) (e : Err) :
    ((GenCommand node line cmd arg0 arg1 e).1 &&& 0xE000 = 0xC000 ↔
      cmd ∈ [['J', 'M', 'P'], ['J', 'E', 'Z'], ['J', 'N', 'Z'], ['J', 'G', 'Z'],
        ['J', 'L', 'Z']]) ∧
    (cmd ∉ [['J', 'M', 'P'], ['J', 'E', 'Z'], ['J', 'N', 'Z'], ['J', 'G', 'Z'],
        ['J', 'L', 'Z']] →
      (GenCommand node line cmd arg0 arg1 e).1 &&& 0xE000 ≠ 0xC000) := by
  have hsl := EncodeSource_lt node line arg0 e
  have key : (GenCommand node line cmd arg0 arg1 e).1 &&& 0xE000 = 0xC000 ↔
      cmd ∈ [['J', 'M', 'P'], ['J', 'E', 'Z'], ['J', 'N', 'Z'], ['J', 'G', 'Z'],
        ['J', 'L', 'Z']] := by
    rw [jumpClass_iff]
    unfold GenCommand
    by_cases h1 : cmd = ['M', 'O', 'V']
    · subst h1
      simp only [if_true]
      have := mov_word_lt (EncodeReg node line arg1 (EncodeSource node line arg0 e).2).1
        (EncodeSource node line arg0 e).1 (EncodeReg_lt _ _ _ _) hsl
      constructor
      · intro h; omega
      · intro h; exact absurd h (by decide)
    rw [if_neg h1]
    by_cases h2 : cmd = ['A', 'D', 'D']
    · subst h2
      simp only [if_true]
      have := or_8000 0 (EncodeSource node line arg0 e).1 (by omega) hsl
      rw [show (0x8000 ||| 0 : Nat) = 0x8000 by decide] at this
      constructor
      · intro h; omega
      · intro h; exact absurd h (by decide)
    rw [if_neg h2]
    by_cases h3 : cmd = ['S', 'U', 'B']
    · subst h3
      simp only [if_true]
      have := or_8000 1 (EncodeSource node line arg0 e).1 (by omega) hsl
      rw [show (0x8000 ||| 1 : Nat) = 0x8001 by decide] at this
      constructor
      · intro h; omega
      · intro h; exact absurd h (by decide)
    rw [if_neg h3]
    by_cases h4 : cmd = ['J', 'R', 'O']
    · subst h4
      simp only [if_true]
      have := or_8000 2 (EncodeSource node line arg0 e).1 (by omega) hsl
      rw [show (0x8000 ||| 2 : Nat) = 0x8002 by decide] at this
      constructor
      · intro h; omega
      · intro h; exact absurd h (by decide)
    rw [if_neg h4]
    by_cases h5 : cmd = ['J', 'M', 'P']
    · rw [if_pos h5, h5]
      exact ⟨fun _ => by decide, fun _ => show (0xC000 : Nat) / 8192 % 8 = 6 by decide⟩
    rw [if_neg h5]
    by_cases h6 : cmd = ['J', 'E', 'Z']
    · rw [if_pos h6, h6]
      exact ⟨fun _ => by decide, fun _ => show (0xC400 : Nat) / 8192 % 8 = 6 by decide⟩
    rw [if_neg h6]
    by_cases h7 : cmd = ['J', 'N', 'Z']
    · rw [if_pos h7, h7]
      exact ⟨fun _ => by decide, fun _ => show (0xC800 : Nat) / 8192 % 8 = 6 by decide⟩
    rw [if_neg h7]
    by_cases h8 : cmd = ['J', 'G', 'Z']
    · rw [if_pos h8, h8]
      exact ⟨fun _ => by decide, fun _ => show (0xCC00 : Nat) / 8192 % 8 = 6 by decide⟩
    rw [if_neg h8]
    by_cases h9 : cmd = ['J', 'L', 'Z']
    · rw [if_pos h9, h9]
      exact ⟨fun _ => by decide, fun _ => show (0xD000 : Nat) / 8192 % 8 = 6 by decide⟩
    rw [if_neg h9]
    have hnot : cmd ∉ [['J', 'M', 'P'], ['J', 'E', 'Z'], ['J', 'N', 'Z'], ['J', 'G', 'Z'],
        ['J', 'L', 'Z']] := by
      simp only [List.mem_cons, List.mem_singleton, List.not_mem_nil, or_false, not_or]
      exact ⟨h5, h6, h7, h8, h9⟩
    by_cases h10 : cmd = ['N', 'E', 'G']
    · rw [if_pos h10]
      exact ⟨fun h => absurd (show (0xE000 : Nat) / 8192 % 8 = 6 from h) (by decide),
        fun h => absurd h hnot⟩
    rw [if_neg h10]
    by_cases h11 : cmd = ['S', 'A', 'V']
    · rw [if_pos h11]
      exact ⟨fun h => absurd (show (0xE200 : Nat) / 8192 % 8 = 6 from h) (by decide),
        fun h => absurd h hnot⟩
    rw [if_neg h11]
    by_cases h12 : cmd = ['S', 'W', 'P']
    · rw [if_pos h12]
      exact ⟨fun h => absurd (show (0xE400 : Nat) / 8192 % 8 = 6 from h) (by decide),
        fun h => absurd h hnot⟩
    rw [if_neg h12]
    by_cases h13 : cmd = ['N', 'O', 'P']
    · rw [if_pos h13]
      exact ⟨fun h => absurd (show (0x0000 : Nat) / 8192 % 8 = 6 from h) (by decide),
        fun h => absurd h hnot⟩
    rw [if_neg h13]
    exact ⟨fun h => absurd (show (0x0000 : Nat) / 8192 % 8 = 6 from h) (by decide),
      fun h => absurd h hnot⟩
  exact ⟨key, fun h hj => h (key.mp hj)⟩

/-- Witness for C19: `SUB` with a register operand is not jump-class. -/
theorem C19_jump_class_iff_witness :
    ['S', 'U', 'B'] ∉ [['J', 'M', 'P'], ['J', 'E', 'Z'], ['J', 'N', 'Z'], ['J', 'G', 'Z'],
        ['J', 'L', 'Z']] ∧
    (GenCommand 0 0 ['S', 'U', 'B'] ['U', 'P'] [] ⟨false, []⟩).1 &&& 0xE000 ≠ 0xC000 :=
  ⟨by decide, (C19_jump_class_iff 0 0 ['S', 'U', 'B'] ['U', 'P'] [] ⟨false, []⟩).2 (by decide)⟩

/-! ## The failure flag after label resolution -/

theorem encodeLabelsStep_flag (node : Int) (labels jump_labels : Nat → CStr)
    (c : Nat → Nat) (e : Err) (i : Nat) :
    (slotDiags node labels jump_labels (c i) i = [] →
      (encodeLabelsStep node labels jump_labels (c, e) i).2 = e) ∧
    (slotDiags node labels jump_labels (c i) i ≠ [] →
      (encodeLabelsStep node labels jump_labels (c, e) i).2.failedCompile = true) ∧
    (e.failedCompile = true →
      (encodeLabelsStep node labels jump_labels (c, e) i).2.failedCompile = true) := by
  unfold encodeLabelsStep slotDiags
  by_cases hj : c i &&& 0xE000 = 0xC000
  · by_cases hs : labelScan labels (jump_labels i) 16 0 = 16
    · simp [hj, hs, Err.fail]
    · simp [hj, hs]
  · simp [hj]

theorem encodeLabels_fold_flag (node : Int) (labels jump_labels : Nat → CStr) (l : List Nat) :
    ∀ (c : Nat → Nat) (e : Err), l.Nodup →
    (labelDiags node labels jump_labels c l = [] →
      (l.foldl (encodeLabelsStep node labels jump_labels) (c, e)).2 = e) ∧
    (labelDiags node labels jump_labels c l ≠ [] ∨ e.failedCompile = true →
      (l.foldl (encodeLabelsStep node labels jump_labels) (c, e)).2.failedCompile = true) := by
  induction l with
  | nil =>
    intro c e _
    refine ⟨fun _ => rfl, fun h => ?_⟩
    rcases h with h | h
    · exact absurd rfl h
    · exact h
  | cons i l ih =>
    intro c e hnd
    obtain ⟨hi, hnd'⟩ := List.nodup_cons.mp hnd
    have hstep : encodeLabelsStep node labels jump_labels (c, e) i =
        ((encodeLabelsStep node labels jump_labels (c, e) i).1,
          (encodeLabelsStep node labels jump_labels (c, e) i).2) := rfl
    have hcongr : labelDiags node labels jump_labels
        (encodeLabelsStep node labels jump_labels (c, e) i).1 l =
        labelDiags node labels jump_labels c l := by
      apply labelDiags_congr
      intro x hx
      have hxi : x ≠ i := fun h => hi (h ▸ hx)
      rw [encodeLabelsStep_fst, if_neg hxi]
    obtain ⟨s1, s2, s3⟩ := encodeLabelsStep_flag node labels jump_labels c e i
    obtain ⟨h1, h2⟩ := ih (encodeLabelsStep node labels jump_labels (c, e) i).1
      (encodeLabelsStep node labels jump_labels (c, e) i).2 hnd'
    rw [List.foldl_cons, hstep]
    rw [hcongr] at h1 h2
    simp only [labelDiags]
    constructor
    · intro h
      obtain ⟨ha, hb⟩ := List.append_eq_nil.mp h
      rw [h1 hb, s1 ha]
    · intro h
      by_cases hb : labelDiags node labels jump_labels c l = []
      · apply h2
        right
        rcases h with h | h
        · apply s2
          intro ha
          exact h (by rw [ha, hb]; rfl)
        · exact s3 h
      · exact h2 (Or.inl hb)

theorem labelDiags_mem (node : Int) (labels jump_labels : Nat → CStr) (c : Nat → Nat)
    (i : Nat) (d : Diag) (hd : d ∈ slotDiags node labels jump_labels (c i) i) (l : List Nat)
    (hi : i ∈ l) : d ∈ labelDiags node labels jump_labels c l := by
  induction l with
  | nil => simp at hi
  | cons x l ih =>
    simp only [labelDiags, List.mem_append]
    rcases List.mem_cons.mp hi with h | h
    · left; rw [← h]; exact hd
    · right; exact ih h

/-- The flag and the diagnostics of `EncodeLabels`. -/
theorem EncodeLabels_flag (node : Int) (commands : Nat → Nat) (labels jump_labels : Nat → CStr)
    (e : Err) :
    (labelDiags node labels jump_labels commands (List.range 16) = [] →
      (EncodeLabels node commands labels jump_labels e).2 = e) ∧
    (labelDiags node labels jump_labels commands (List.range 16) ≠ [] ∨
        e.failedCompile = true →
      (EncodeLabels node commands labels jump_labels e).2.failedCompile = true) :=
  encodeLabels_fold_flag node labels jump_labels (List.range 16) commands e
    (List.nodup_range 16)

/-- C11: let slot `i` hold a jump-class word whose deferred jump-label text equals none of
the 16 label entries. `EncodeLabels` then sets `failedCompile`, prints "label not found"
for line `i + 1`, and leaves the word of slot `i` as it was. Every other slot gets the
word it would get with any other content in slot `i`; in particular another jump-class
slot whose text matches a label gets the lowest matching index in bits [9:6]. -/
theorem C11_undefined_label (node : Int) (commands : Nat → Nat)
    (labels jump_labels : Nat → CStr) (e : Err) (i : Nat)
    (hi : i < 16) (hjump : commands i &&& 0xE000 = 0xC000)
    (hnone : ∀ j, j < 16 → labels j ≠ jump_labels i) :
    (EncodeLabels node commands labels jump_labels e).2.failedCompile = true ∧
    Diag.labelNotFound node (i + 1) (jump_labels i) ∈
      (EncodeLabels node commands labels jump_labels e).2.stderr ∧
    (EncodeLabels node commands labels jump_labels e).1 i = commands i ∧
    (∀ (commands' : Nat → Nat) (e' : Err), (∀ x, x ≠ i → commands' x = commands x) →
      ∀ x, x ≠ i → (EncodeLabels node commands' labels jump_labels e').1 x =
        (EncodeLabels node commands labels jump_labels e).1 x) ∧
    (∀ x k, x < 16 → x ≠ i → commands x &&& 0xE000 = 0xC000 → commands x < 65536 →
      k < 16 → labels k = jump_labels x → (∀ j, j < k → labels j ≠ jump_labels x) →
      (EncodeLabels node commands labels jump_labels e).1 x = commands x ||| (k <<< 6)) := by
  have hscan : labelScan labels (jump_labels i) 16 0 = 16 :=
    (labelScan_eq_16_iff labels (jump_labels i)).mpr hnone
  have hdiag : slotDiags node labels jump_labels (commands i) i =
      [Diag.labelNotFound node (i + 1) (jump_labels i)] := by
    unfold slotDiags
    rw [if_pos ⟨hjump, hscan⟩]
  have hmem : Diag.labelNotFound node (i + 1) (jump_labels i) ∈
      labelDiags node labels jump_labels commands (List.range 16) :=
    labelDiags_mem node labels jump_labels commands i _ (by rw [hdiag]; simp) _
      (List.mem_range.mpr hi)
  obtain ⟨s1, s2⟩ := EncodeLabels_slot node commands labels jump_labels e
  obtain ⟨_, f2⟩ := EncodeLabels_flag node commands labels jump_labels e
  refine ⟨f2 (Or.inl (List.ne_nil_of_mem hmem)), ?_, ?_, ?_, ?_⟩
  · rw [s2]
    exact List.mem_append_right _ hmem
  · rw [s1 i, if_pos hi, resolvedWord, if_pos hjump, if_pos hscan]
  · intro commands' e' hc x hx
    rw [(EncodeLabels_slot node commands' labels jump_labels e').1 x, s1 x, hc x hx]
  · intro x k hx _ hxj hxw hk hl hmin
    rw [s1 x, if_pos hx, resolvedWord, if_pos hxj,
      labelScan_eq_of_lowest labels (jump_labels x) k hk hl hmin, if_neg (by omega),
      patch_u16 _ _ hxw hk]

/-- Witness for C11: slot 0 jumps to `M`, which labels nothing; slot 1 jumps to `L`,
the label of slot 2. -/
theorem C11_undefined_label_witness :
    (EncodeLabels 7 (fun x => if x < 2 then 0xC000 else 0)
      (fun x => if x = 2 then ['L'] else []) (fun x => if x = 0 then ['M'] else ['L'])
      ⟨false, []⟩).2.failedCompile = true ∧
    (EncodeLabels 7 (fun x => if x < 2 then 0xC000 else 0)
      (fun x => if x = 2 then ['L'] else []) (fun x => if x = 0 then ['M'] else ['L'])
      ⟨false, []⟩).1 0 = (fun x => if x < 2 then 0xC000 else 0) 0 :=
  have h := C11_undefined_label 7 (fun x => if x < 2 then 0xC000 else 0)
    (fun x => if x = 2 then ['L'] else []) (fun x => if x = 0 then ['M'] else ['L'])
    ⟨false, []⟩ 0 (by decide) (by decide) (by decide)
  ⟨h.1, h.2.2.1⟩

/-! ## The line scanner on plain words, separators and comments -/

theorem scanLine_append (node : Int) (lineNum c : Nat) (a b : CStr) (ha : '\x00' ∉ a) :
    ∀ s : Scan, scanLine node lineNum c (a ++ b) s =
      scanLine node lineNum c b (scanLine node lineNum c a s) := by
  induction a with
  | nil => intro s; rfl
  | cons x xs ih =>
    intro s
    have hx : x ≠ '\x00' := fun h => ha (h ▸ List.mem_cons_self _ _)
    have hxs : '\x00' ∉ xs := fun h => ha (List.mem_cons_of_mem _ h)
    simp only [List.cons_append, scanLine, if_neg hx]
    exact ih hxs _

theorem isPlain_ne (ch : Char) (h : isPlain ch = true) :
    ch ≠ ':' ∧ ch ≠ '#' ∧ ch ≠ ',' ∧ ch ≠ ' ' ∧ ch ≠ '\r' ∧ ch ≠ '\n' ∧ ch ≠ '\x00' := by
  simp only [isPlain, isDelim, Bool.and_eq_true, Bool.not_eq_true', Bool.or_eq_false_iff,
    decide_eq_false_iff_not, bne_iff_ne, ne_eq] at h
  obtain ⟨⟨⟨⟨⟨⟨h1, h2⟩, h3⟩, h4⟩, h5⟩, h6⟩, h7⟩ := h
  exact ⟨h5, h6, h1, h2, h3, h4, h7⟩

theorem isDelim_ne (ch : Char) (h : isDelim ch = true) :
    ch ≠ ':' ∧ ch ≠ '#' ∧ ch ≠ '\x00' ∧ (ch = ',' ∨ ch = ' ' ∨ ch = '\r' ∨ ch = '\n') := by
  simp only [isDelim, Bool.or_eq_true, decide_eq_true_eq] at h
  have h4 : ch = ',' ∨ ch = ' ' ∨ ch = '\r' ∨ ch = '\n' := by
    rcases h with ((h | h) | h) | h
    · exact Or.inl h
    · exact Or.inr (Or.inl h)
    · exact Or.inr (Or.inr (Or.inl h))
    · exact Or.inr (Or.inr (Or.inr h))
  refine ⟨?_, ?_, ?_, h4⟩ <;>
    · rintro rfl
      revert h4
      decide

/-- A plain character is appended to the word being read. -/
theorem scanChar_plain (node : Int) (lineNum c : Nat) (s : Scan) (ch : Char)
    (h : isPlain ch = true) :
    scanChar node lineNum c s ch = { s with word := s.word ++ [ch] } := by
  obtain ⟨h1, h2, h3, h4, h5, h6, _⟩ := isPlain_ne ch h
  unfold scanChar
  rw [if_neg (fun hc => h1 hc.1), if_neg h2, if_neg (by
    rintro ⟨_, hd | hd | hd | hd⟩
    · exact h3 hd
    · exact h4 hd
    · exact h5 hd
    · exact h6 hd)]

/-- A separator outside a comment stores the word being read, if any, and starts a new
one. -/
theorem scanChar_delim (node : Int) (lineNum c : Nat) (s : Scan) (ch : Char)
    (h : isDelim ch = true) (hc : s.commentflag = false) :
    scanChar node lineNum c s ch =
      { (if s.word ≠ [] then pushWord node lineNum s s.word else s) with word := [] } := by
  obtain ⟨h1, h2, _, h4⟩ := isDelim_ne ch h
  unfold scanChar pushWord
  rw [if_neg (fun hx => h1 hx.1), if_neg h2, if_pos ⟨hc, h4⟩]

theorem scanLine_plain (node : Int) (lineNum c : Nat) (w : CStr)
    (hw : ∀ ch ∈ w, isPlain ch = true) :
    ∀ s : Scan, scanLine node lineNum c w s = { s with word := s.word ++ w } := by
  induction w with
  | nil => intro s; simp [scanLine]
  | cons x xs ih =>
    intro s
    have hx := hw x (List.mem_cons_self _ _)
    have hx0 : x ≠ '\x00' := (isPlain_ne x hx).2.2.2.2.2.2
    rw [scanLine, if_neg hx0, scanChar_plain _ _ _ _ _ hx,
      ih (fun ch hch => hw ch (List.mem_cons_of_mem _ hch))]
    simp

theorem scanLine_delims (node : Int) (lineNum c : Nat) (ws : CStr)
    (hws : ∀ ch ∈ ws, isDelim ch = true) :
    ∀ s : Scan, s.commentflag = false → s.word = [] → scanLine node lineNum c ws s = s := by
  induction ws with
  | nil => intro s _ _; rfl
  | cons x xs ih =>
    intro s hc hw
    have hx := hws x (List.mem_cons_self _ _)
    have hx0 : x ≠ '\x00' := (isDelim_ne x hx).2.2.1
    have hstep : scanChar node lineNum c s x = s := by
      rw [scanChar_delim _ _ _ _ _ hx hc, hw]
      simp only [ne_eq, not_true_eq_false, if_false]
      rw [← hw]
    rw [scanLine, if_neg hx0, hstep]
    exact ih (fun ch hch => hws ch (List.mem_cons_of_mem _ hch)) s hc hw

/-- Inside a comment nothing but the word buffer changes. -/
theorem scanLine_comment (node : Int) (lineNum c : Nat) (line : CStr) :
    ∀ s : Scan, s.commentflag = true →
      (scanLine node lineNum c line s).cmd = s.cmd ∧
      (scanLine node lineNum c line s).arg0 = s.arg0 ∧
      (scanLine node lineNum c line s).arg1 = s.arg1 ∧
      (scanLine node lineNum c line s).labels = s.labels ∧
      (scanLine node lineNum c line s).err = s.err := by
  induction line with
  | nil => intro s _; exact ⟨rfl, rfl, rfl, rfl, rfl⟩
  | cons x xs ih =>
    intro s hc
    rw [scanLine]
    split
    · exact ⟨rfl, rfl, rfl, rfl, rfl⟩
    · have hstep : (scanChar node lineNum c s x).commentflag = true ∧
          (scanChar node lineNum c s x).cmd = s.cmd ∧
          (scanChar node lineNum c s x).arg0 = s.arg0 ∧
          (scanChar node lineNum c s x).arg1 = s.arg1 ∧
          (scanChar node lineNum c s x).labels = s.labels ∧
          (scanChar node lineNum c s x).err = s.err := by
        unfold scanChar
        rw [if_neg (fun h => by rw [hc] at h; exact absurd h.2.1 (by decide))]
        split
        · exact ⟨rfl, rfl, rfl, rfl, rfl, rfl⟩
        · rw [if_neg (fun h => by rw [hc] at h; exact absurd h.1 (by decide))]
          exact ⟨hc, rfl, rfl, rfl, rfl, rfl⟩
      obtain ⟨i1, i2, i3, i4, i5⟩ := ih _ hstep.1
      exact ⟨i1.trans hstep.2.1, i2.trans hstep.2.2.1, i3.trans hstep.2.2.2.1,
        i4.trans hstep.2.2.2.2.1, i5.trans hstep.2.2.2.2.2⟩

/-- A text that is empty or starts with `#` changes nothing but the word buffer and the
comment flag. -/
theorem scanLine_comment_tail (node : Int) (lineNum c : Nat) (com : CStr)
    (hcom : com = [] ∨ com.head? = some '#') (s : Scan) :
    (scanLine node lineNum c com s).cmd = s.cmd ∧
    (scanLine node lineNum c com s).arg0 = s.arg0 ∧
    (scanLine node lineNum c com s).arg1 = s.arg1 ∧
    (scanLine node lineNum c com s).labels = s.labels ∧
    (scanLine node lineNum c com s).err = s.err := by
  rcases hcom with h | h
  · subst h; exact ⟨rfl, rfl, rfl, rfl, rfl⟩
  · cases com with
    | nil => simp at h
    | cons x xs =>
      simp only [List.head?_cons, Option.some.injEq] at h
      subst h
      have hstep : scanChar node lineNum c s '#' = { s with commentflag := true } := by
        unfold scanChar
        rw [if_neg (fun h => absurd h.1 (by decide)), if_pos rfl]
      rw [scanLine, if_neg (by decide), hstep]
      exact scanLine_comment node lineNum c xs _ rfl

/-! ## The scanner on a line without label and comment -/

theorem pushWord_word (node : Int) (lineNum : Nat) (s : Scan) (w x : CStr) :
    pushWord node lineNum { s with word := x } w =
      { pushWord node lineNum s w with word := x } := by
  unfold pushWord
  simp only
  split
  · rfl
  · split
    · rfl
    · split <;> rfl

theorem foldl_pushWord_word (node : Int) (lineNum : Nat) (rs : List CStr) :
    ∀ (s : Scan) (x : CStr), rs.foldl (pushWord node lineNum) { s with word := x } =
      { rs.foldl (pushWord node lineNum) s with word := x } := by
  induction rs with
  | nil => intro s x; rfl
  | cons r rs ih =>
    intro s x
    rw [List.foldl_cons, List.foldl_cons, pushWord_word, ih]

theorem scanLine_cons_ne (node : Int) (lineNum c : Nat) (x : Char) (xs : CStr) (s : Scan)
    (hx : x ≠ '\x00') :
    scanLine node lineNum c (x :: xs) s =
      scanLine node lineNum c xs (scanChar node lineNum c s x) := by
  rw [scanLine, if_neg hx]

theorem runsFrom_cons_delim (x : Char) (xs cur : CStr) (hx : isDelim x = true) :
    runsFrom (x :: xs) cur = if cur = [] then runsFrom xs [] else cur :: runsFrom xs [] := by
  rw [runsFrom, if_pos hx]

theorem runsFrom_cons_plain (x : Char) (xs cur : CStr) (hx : isDelim x = false) :
    runsFrom (x :: xs) cur = runsFrom xs (cur ++ [x]) := by
  rw [runsFrom, if_neg (by simp [hx])]

theorem pushWord_commentflag (node : Int) (lineNum : Nat) (s : Scan) (w : CStr) :
    (pushWord node lineNum s w).commentflag = s.commentflag := by
  unfold pushWord
  split
  · rfl
  · split
    · rfl
    · split <;> rfl

/-- On a line made of plain characters and separators and closed by a newline, the
scanner stores the runs of the line one after the other. -/
theorem scanLine_runs (node : Int) (lineNum c : Nat) (body : CStr) :
    ∀ s : Scan, (∀ ch ∈ body, isDelim ch = true ∨ isPlain ch = true) →
      s.commentflag = false →
      scanLine node lineNum c (body ++ ['\n']) s =
        { (runsFrom (body ++ ['\n']) s.word).foldl (pushWord node lineNum) s with
          word := [] } := by
  have hd : isDelim '\n' = true := by decide
  induction body with
  | nil =>
    intro s _ hc
    rw [List.nil_append, scanLine_cons_ne _ _ _ _ _ _ (by decide), scanLine,
      scanChar_delim _ _ _ _ _ hd hc, runsFrom_cons_delim _ _ _ hd]
    by_cases hw : s.word = []
    · rw [if_neg (not_not.mpr hw), if_pos hw]
      rfl
    · rw [if_pos hw, if_neg hw]
      rfl
  | cons x xs ih =>
    intro s hb hc
    have hxs : ∀ ch ∈ xs, isDelim ch = true ∨ isPlain ch = true :=
      fun ch hch => hb ch (List.mem_cons_of_mem _ hch)
    rcases hb x (List.mem_cons_self _ _) with hx | hx
    · have hx0 : x ≠ '\x00' := (isDelim_ne x hx).2.2.1
      rw [List.cons_append, scanLine_cons_ne _ _ _ _ _ _ hx0, scanChar_delim _ _ _ _ _ hx hc,
        runsFrom_cons_delim _ _ _ hx]
      by_cases hw : s.word = []
      · rw [if_neg (not_not.mpr hw), if_pos hw]
        refine (ih { s with word := [] } hxs hc).trans ?_
        exact congrArg (fun t : Scan => { t with word := [] })
          (foldl_pushWord_word node lineNum (runsFrom (xs ++ ['\n']) []) s [])
      · rw [if_pos hw, if_neg hw, List.foldl_cons]
        refine (ih { pushWord node lineNum s s.word with word := [] } hxs
          ((pushWord_commentflag _ _ _ _).trans hc)).trans ?_
        exact congrArg (fun t : Scan => { t with word := [] })
          (foldl_pushWord_word node lineNum (runsFrom (xs ++ ['\n']) [])
            (pushWord node lineNum s s.word) [])
    · have hx0 : x ≠ '\x00' := (isPlain_ne x hx).2.2.2.2.2.2
      have hnd : isDelim x = false := by
        simp only [isPlain, Bool.and_eq_true, Bool.not_eq_true'] at hx
        exact hx.1.1.1
      rw [List.cons_append, scanLine_cons_ne _ _ _ _ _ _ hx0, scanChar_plain _ _ _ _ _ hx,
        runsFrom_cons_plain _ _ _ hnd]
      refine (ih { s with word := s.word ++ [x] } hxs hc).trans ?_
      exact congrArg (fun t : Scan => { t with word := [] })
        (foldl_pushWord_word node lineNum (runsFrom (xs ++ ['\n']) (s.word ++ [x])) s
          (s.word ++ [x]))

theorem runsFrom_ne_nil (line : CStr) : ∀ cur : CStr, ∀ r ∈ runsFrom line cur, r ≠ [] := by
  induction line with
  | nil =>
    intro cur r hr
    simp only [runsFrom] at hr
    split at hr
    · simp at hr
    · rename_i h
      simp only [List.mem_singleton] at hr
      rw [hr]; exact h
  | cons x xs ih =>
    intro cur r hr
    simp only [runsFrom] at hr
    split at hr
    · split at hr
      · exact ih _ r hr
      · rename_i h
        rcases List.mem_cons.mp hr with h1 | h1
        · rw [h1]; exact h
        · exact ih _ r h1
    · exact ih _ r hr

/-- Words stored after the three positions are filled only add diagnostics. -/
theorem foldl_pushWord_full (node : Int) (lineNum : Nat) (rs : List CStr) :
    ∀ s : Scan, s.cmd ≠ [] → s.arg0 ≠ [] → s.arg1 ≠ [] →
      rs.foldl (pushWord node lineNum) s =
        { s with err := if rs = [] then s.err else
            { failedCompile := true
              stderr := s.err.stderr ++
                List.replicate rs.length (Diag.tooManyArguments node lineNum) } } := by
  induction rs with
  | nil => intro s _ _ _; rfl
  | cons r rs ih =>
    intro s h1 h2 h3
    have hp : pushWord node lineNum s r =
        { s with err := s.err.fail (Diag.tooManyArguments node lineNum) } := by
      unfold pushWord
      rw [if_neg h1, if_neg h2, if_neg h3]
    rw [List.foldl_cons, hp]
    refine (ih { s with err := s.err.fail (Diag.tooManyArguments node lineNum) }
      h1 h2 h3).trans ?_
    by_cases hrs : rs = []
    · subst hrs; simp [Err.fail]
    · simp [hrs, Err.fail, List.replicate_succ]

/-- The positions filled by a list of non-empty words, starting from empty positions. -/
theorem foldl_pushWord_init (node : Int) (lineNum : Nat) (rs : List CStr)
    (hne : ∀ r ∈ rs, r ≠ []) (s : Scan) (h1 : s.cmd = []) (h2 : s.arg0 = [])
    (h3 : s.arg1 = []) :
    (rs.foldl (pushWord node lineNum) s).cmd = rs.getD 0 [] ∧
    (rs.foldl (pushWord node lineNum) s).arg0 = rs.getD 1 [] ∧
    (rs.foldl (pushWord node lineNum) s).arg1 = rs.getD 2 [] ∧
    (rs.foldl (pushWord node lineNum) s).labels = s.labels ∧
    (rs.foldl (pushWord node lineNum) s).err =
      (if rs.length ≤ 3 then s.err else
        { failedCompile := true
          stderr := s.err.stderr ++
            List.replicate (rs.length - 3) (Diag.tooManyArguments node lineNum) }) := by
  match rs, hne with
  | [], _ => simp [h1, h2, h3]
  | [a], _ => simp [pushWord, h1, h2, h3]
  | [a, b], hne =>
    have ha : a ≠ [] := hne a (by simp)
    simp [pushWord, h1, h2, h3, ha]
  | a :: b :: c :: rest, hne =>
    have ha : a ≠ [] := hne a (by simp)
    have hb : b ≠ [] := hne b (by simp)
    have hc : c ≠ [] := hne c (by simp)
    have p1 : pushWord node lineNum s a = { s with cmd := a } := by
      unfold pushWord; rw [if_pos h1]
    have p2 : pushWord node lineNum { s with cmd := a } b = { s with cmd := a, arg0 := b } := by
      unfold pushWord; rw [if_neg ha, if_pos h2]
    have p3 : pushWord node lineNum { s with cmd := a, arg0 := b } c =
        { s with cmd := a, arg0 := b, arg1 := c } := by
      unfold pushWord; rw [if_neg ha, if_neg hb, if_pos h3]
    rw [List.foldl_cons, List.foldl_cons, List.foldl_cons, p1, p2, p3,
      foldl_pushWord_full _ _ _ _ ha hb hc]
    refine ⟨rfl, rfl, rfl, rfl, ?_⟩
    by_cases hr : rest = []
    · subst hr; simp
    · have hl : 0 < rest.length := List.length_pos.mpr hr
      have h4 : ¬ (rest.length + 1 + 1 + 1 ≤ 3) := by omega
      have h5 : rest.length + 1 + 1 + 1 - 3 = rest.length := by omega
      simp only [hr, if_false, List.length_cons, h4, h5]

/-! ## The runs of a line as a split at the separators -/

theorem modifyHead_self (l : List CStr) : l.modifyHead (fun x => x) = l := by
  cases l <;> rfl

theorem runsFrom_eq_splitOnP (line : CStr) : ∀ cur : CStr,
    runsFrom line cur =
      ((line.splitOnP isDelim).modifyHead (fun l => cur ++ l)).filter
        (fun l => decide (l ≠ [])) := by
  induction line with
  | nil =>
    intro cur
    by_cases hc : cur = []
    · simp [runsFrom, hc]
    · simp [runsFrom, hc]
  | cons c cs ih =>
    intro cur
    rw [List.splitOnP_cons]
    by_cases hd : isDelim c = true
    · rw [runsFrom_cons_delim _ _ _ hd, if_pos hd, ih []]
      by_cases hc : cur = []
      · simp [hc, modifyHead_self]
      · simp [hc, modifyHead_self]
    · have hd' : isDelim c = false := by simpa using hd
      rw [runsFrom_cons_plain _ _ _ hd', if_neg hd, ih (cur ++ [c]), List.modifyHead_modifyHead]
      congr 2
      funext l
      simp

/-- The runs of a line are the non-empty pieces obtained by splitting it at every
separator. -/
theorem runs_eq_splitOnP (line : CStr) :
    runs line = (line.splitOnP isDelim).filter (fun l => decide (l ≠ [])) := by
  rw [runs, runsFrom_eq_splitOnP]
  congr 1
  cases line.splitOnP isDelim <;> simp

theorem delim_or_plain (ch : Char) (h : ch ≠ '#' ∧ ch ≠ ':' ∧ ch ≠ '\x00') :
    isDelim ch = true ∨ isPlain ch = true := by
  by_cases hd : isDelim ch = true
  · exact Or.inl hd
  · right
    simp only [Bool.not_eq_true] at hd
    simp [isPlain, hd, h.1, h.2.1, h.2.2]

/-- The tokens and diagnostics the scanner leaves on a line without `:`, `#` and NUL
that is closed by a newline, in terms of the runs of the line. -/
theorem scanOf_runs (d : Driver) (body : CStr)
    (hbody : ∀ ch ∈ body, ch ≠ '#' ∧ ch ≠ ':' ∧ ch ≠ '\x00') :
    (scanOf d (body ++ ['\n'])).cmd = (runs (body ++ ['\n'])).getD 0 [] ∧
    (scanOf d (body ++ ['\n'])).arg0 = (runs (body ++ ['\n'])).getD 1 [] ∧
    (scanOf d (body ++ ['\n'])).arg1 = (runs (body ++ ['\n'])).getD 2 [] ∧
    (scanOf d (body ++ ['\n'])).labels = d.labels ∧
    (scanOf d (body ++ ['\n'])).err =
      (if (runs (body ++ ['\n'])).length ≤ 3 then d.err else
        { failedCompile := true
          stderr := d.err.stderr ++ List.replicate ((runs (body ++ ['\n'])).length - 3)
            (Diag.tooManyArguments d.node d.lineNum) }) := by
  have h := scanLine_runs d.node d.lineNum d.cmdLineNum body
    { commentflag := false, word := [], cmd := [], arg0 := [], arg1 := [],
      labels := d.labels, err := d.err }
    (fun ch hch => delim_or_plain ch (hbody ch hch)) rfl
  have hi := foldl_pushWord_init d.node d.lineNum (runs (body ++ ['\n']))
    (runsFrom_ne_nil _ _)
    { commentflag := false, word := [], cmd := [], arg0 := [], arg1 := [],
      labels := d.labels, err := d.err } rfl rfl rfl
  unfold scanOf
  rw [h]
  exact hi

/-- C15: on a line without comment (`#`) and label (`:`) that is closed by a newline (a C
string, so without NUL), the scanner takes the maximal runs of characters other than
space, comma, CR and LF in order: the first is the mnemonic, the second operand 0, the
third operand 1. With at most three runs the error state is untouched; with more,
`failedCompile` is set, one "too many arguments" diagnostic is printed per extra run, and
the extra runs are stored nowhere. -/
theorem C15_positional_tokens (d : Driver) (body : CStr)
    (hbody : ∀ ch ∈ body, ch ≠ '#' ∧ ch ≠ ':' ∧ ch ≠ '\x00') :
    (scanOf d (body ++ ['\n'])).cmd = (runs (body ++ ['\n'])).getD 0 [] ∧
    (scanOf d (body ++ ['\n'])).arg0 = (runs (body ++ ['\n'])).getD 1 [] ∧
    (scanOf d (body ++ ['\n'])).arg1 = (runs (body ++ ['\n'])).getD 2 [] ∧
    (scanOf d (body ++ ['\n'])).labels = d.labels ∧
    ((runs (body ++ ['\n'])).length ≤ 3 → (scanOf d (body ++ ['\n'])).err = d.err) ∧
    (3 < (runs (body ++ ['\n'])).length →
      (scanOf d (body ++ ['\n'])).err.failedCompile = true ∧
      (scanOf d (body ++ ['\n'])).err.stderr =
        d.err.stderr ++ List.replicate ((runs (body ++ ['\n'])).length - 3)
          (Diag.tooManyArguments d.node d.lineNum)) := by
  obtain ⟨h1, h2, h3, h4, h5⟩ := scanOf_runs d body hbody
  refine ⟨h1, h2, h3, h4, ?_, ?_⟩
  · intro hle
    rw [h5, if_pos hle]
  · intro hgt
    rw [h5, if_neg (by omega)]
    exact ⟨rfl, rfl⟩

/-- Witness for C15: the line `MOV 1 2,3 4`, with five runs. -/
theorem C15_positional_tokens_witness :
    (∀ ch ∈ "MOV 1 2,3 4".toList, ch ≠ '#' ∧ ch ≠ ':' ∧ ch ≠ '\x00') ∧
    runs ("MOV 1 2,3 4".toList ++ ['\n']) = [['M', 'O', 'V'], ['1'], ['2'], ['3'], ['4']] ∧
    (scanOf (initDriver (fun _ => []) (fun _ => []) (fun _ => 0))
      ("MOV 1 2,3 4".toList ++ ['\n'])).cmd = (runs ("MOV 1 2,3 4".toList ++ ['\n'])).getD 0 [] ∧
    (3 < (runs ("MOV 1 2,3 4".toList ++ ['\n'])).length →
      (scanOf (initDriver (fun _ => []) (fun _ => []) (fun _ => 0))
        ("MOV 1 2,3 4".toList ++ ['\n'])).err.failedCompile = true ∧
      (scanOf (initDriver (fun _ => []) (fun _ => []) (fun _ => 0))
        ("MOV 1 2,3 4".toList ++ ['\n'])).err.stderr =
        (initDriver (fun _ => []) (fun _ => []) (fun _ => 0)).err.stderr ++
          List.replicate ((runs ("MOV 1 2,3 4".toList ++ ['\n'])).length - 3)
            (Diag.tooManyArguments (initDriver (fun _ => []) (fun _ => []) (fun _ => 0)).node
              (initDriver (fun _ => []) (fun _ => []) (fun _ => 0)).lineNum)) :=
  have h := C15_positional_tokens (initDriver (fun _ => []) (fun _ => []) (fun _ => 0))
    "MOV 1 2,3 4".toList (by decide)
  ⟨by decide, by decide, h.1, h.2.2.2.2.2⟩

/-! ## Reading whole lines with `fgets` -/

theorem fgetsChars_line (l rest : List Char) (hl : '\n' ∉ l) :
    ∀ n, l.length < n → fgetsChars n (l ++ '\n' :: rest) = (l ++ ['\n'], rest) := by
  induction l with
  | nil =>
    intro n hn
    obtain ⟨m, rfl⟩ : ∃ m, n = m + 1 := ⟨n - 1, by simp at hn; omega⟩
    simp [fgetsChars]
  | cons x xs ih =>
    intro n hn
    obtain ⟨m, rfl⟩ : ∃ m, n = m + 1 := ⟨n - 1, by omega⟩
    have hx : x ≠ '\n' := fun h => hl (h ▸ List.mem_cons_self _ _)
    have hxs : '\n' ∉ xs := fun h => hl (List.mem_cons_of_mem _ h)
    have := ih hxs m (by simp only [List.length_cons] at hn; omega)
    rw [List.cons_append, fgetsChars, if_neg hx, this]
    rfl

theorem fgets_line (l rest : List Char) (hl : '\n' ∉ l) (hlen : l.length ≤ 30) :
    fgets 32 (l ++ '\n' :: rest) = some (l ++ ['\n'], rest) := by
  unfold fgets
  rw [if_neg (by simp), fgetsChars_line l rest hl 31 (by omega)]

theorem mainLoop_nil (fuel : Nat) (d : Driver) : mainLoop fuel [] d = d := by
  cases fuel <;> rfl

/-- A file of two lines, each closed by a newline and short enough for the buffer, is
processed as these two lines. -/
theorem mainLoop_two_lines (l1 l2 : List Char) (h1 : '\n' ∉ l1) (h2 : '\n' ∉ l2)
    (n1 : l1.length ≤ 30) (n2 : l2.length ≤ 30) (d : Driver) :
    mainLoop (l1 ++ '\n' :: (l2 ++ ['\n'])).length (l1 ++ '\n' :: (l2 ++ ['\n'])) d =
      processLine (processLine d (l1 ++ ['\n'])) (l2 ++ ['\n']) := by
  obtain ⟨f, hf⟩ : ∃ f, (l1 ++ '\n' :: (l2 ++ ['\n'])).length = f + 2 :=
    ⟨l1.length + l2.length, by simp; omega⟩
  rw [hf, mainLoop, fgets_line l1 _ h1 n1]
  simp only
  have : l2 ++ ['\n'] = l2 ++ '\n' :: [] := rfl
  rw [mainLoop, this, fgets_line l2 [] h2 n2]
  simp only
  exact mainLoop_nil _ _

/-! ## Decimal texts and register names as tokens -/

theorem toDigitsCore_length (fuel : Nat) : ∀ (k n : Nat) (ds : List Char), 0 < k →
    n < 10 ^ k → (Nat.toDigitsCore 10 fuel n ds).length ≤ ds.length + k := by
  induction fuel with
  | zero => intro k n ds _ _; simp [Nat.toDigitsCore]
  | succ fuel ih =>
    intro k n ds hk hn
    rw [Nat.toDigitsCore]
    split
    · simp only [List.length_cons]; omega
    · rename_i h0
      obtain ⟨j, rfl⟩ : ∃ j, k = j + 1 := ⟨k - 1, by omega⟩
      have hj : 0 < j := by
        rcases Nat.eq_zero_or_pos j with h | h
        · subst h
          simp only [zero_add, pow_one] at hn
          omega
        · exact h
      have hlt : n / 10 < 10 ^ j := by
        rw [pow_succ] at hn
        omega
      have := ih j (n / 10) (Nat.digitChar (n % 10) :: ds) hj hlt
      simp only [List.length_cons] at this
      omega

theorem decimalText_length (n : Int) (hlo : -1024 ≤ n) (hhi : n ≤ 1023) :
    (decimalText n).length ≤ 5 := by
  unfold decimalText
  split
  · have := toDigitsCore_length (n.natAbs + 1) 4 n.natAbs [] (by decide) (by omega)
    simp only [List.length_cons, Nat.toDigits]
    simp only [List.length_nil] at this
    omega
  · have := toDigitsCore_length (n.toNat + 1) 4 n.toNat [] (by decide) (by omega)
    simp only [Nat.toDigits]
    simp only [List.length_nil] at this
    omega

theorem isdigit_isPlain (c : Char) (h : isdigit c = true) : isPlain c = true := by
  have hne : ∀ x : Char, isdigit x = false → c ≠ x := by
    rintro x hx rfl
    rw [h] at hx
    exact absurd hx (by decide)
  have h1 := hne ',' (by decide)
  have h2 := hne ' ' (by decide)
  have h3 := hne '\r' (by decide)
  have h4 := hne '\n' (by decide)
  have h5 := hne ':' (by decide)
  have h6 := hne '#' (by decide)
  have h7 := hne '\x00' (by decide)
  simp [isPlain, isDelim, h1, h2, h3, h4, h5, h6, h7]

theorem decimalText_plain (n : Int) : ∀ c ∈ decimalText n, isPlain c = true := by
  unfold decimalText
  split
  · intro c hc
    rcases List.mem_cons.mp hc with h | h
    · rw [h]; decide
    · exact isdigit_isPlain c (toDigits_all _ c h)
  · intro c hc
    exact isdigit_isPlain c (toDigits_all _ c hc)

theorem decimalText_ne_nil (n : Int) : decimalText n ≠ [] := by
  unfold decimalText
  split
  · simp
  · exact toDigits_ne_nil _

theorem registerNames_token (R : CStr) (hR : R ∈ registerNames) :
    (∀ c ∈ R, isPlain c = true) ∧ R ≠ [] ∧ R.length ≤ 5 := by
  simp only [registerNames, List.mem_cons, List.mem_singleton, List.not_mem_nil, or_false] at hR
  rcases hR with h | h | h | h | h | h | h | h <;> subst h <;> decide

theorem EncodeReg_indexOf (node : Int) (line : Nat) (R : CStr) (e : Err)
    (hR : R ∈ registerNames) : EncodeReg node line R e = (registerNames.indexOf R, e) := by
  simp only [registerNames, List.mem_cons, List.mem_singleton, List.not_mem_nil, or_false] at hR
  rcases hR with h | h | h | h | h | h | h | h <;> subst h <;> rfl

theorem EncodeSource_decimalText (node : Int) (line : Nat) (e : Err) (n : Int)
    (hlo : -1024 ≤ n) (hhi : n ≤ 1023) :
    EncodeSource node line (decimalText n) e = ((n % 2048).toNat, e) := by
  have hnum : sourceIsDigit (decimalText n) = true := by
    rw [sourceIsDigit_eq_numericToken, numericToken_decimalText]
  unfold EncodeSource
  rw [if_pos hnum]
  simp only [atoi_decimalText, toNat_emod_and]
  rw [if_neg (by omega)]

theorem runsFrom_plain (w : CStr) (hw : ∀ c ∈ w, isPlain c = true) :
    ∀ (rest cur : CStr), runsFrom (w ++ rest) cur = runsFrom rest (cur ++ w) := by
  induction w with
  | nil => intro rest cur; simp
  | cons x xs ih =>
    intro rest cur
    have hx := hw x (List.mem_cons_self _ _)
    have hnd : isDelim x = false := by
      simp only [isPlain, Bool.and_eq_true, Bool.not_eq_true'] at hx
      exact hx.1.1.1
    rw [List.cons_append, runsFrom_cons_plain _ _ _ hnd,
      ih (fun c hc => hw c (List.mem_cons_of_mem _ hc))]
    simp

/-- The runs of the line `MOV a, b` for plain non-empty `a` and `b`. -/
theorem runs_MOV_line (a b : CStr) (ha : ∀ c ∈ a, isPlain c = true)
    (hb : ∀ c ∈ b, isPlain c = true) (hane : a ≠ []) (hbne : b ≠ []) :
    runs (['M', 'O', 'V', ' '] ++ a ++ [',', ' '] ++ b ++ ['\n']) = [['M', 'O', 'V'], a, b] := by
  have e1 : ['M', 'O', 'V', ' '] ++ a ++ [',', ' '] ++ b ++ ['\n'] =
      'M' :: 'O' :: 'V' :: ' ' :: (a ++ ',' :: ' ' :: (b ++ ['\n'])) := by simp
  have hM : isDelim 'M' = false := by decide
  have hO : isDelim 'O' = false := by decide
  have hV : isDelim 'V' = false := by decide
  have hsp : isDelim ' ' = true := by decide
  have hco : isDelim ',' = true := by decide
  have hnl : isDelim '\n' = true := by decide
  rw [e1, runs, runsFrom_cons_plain _ _ _ hM, runsFrom_cons_plain _ _ _ hO,
    runsFrom_cons_plain _ _ _ hV, runsFrom_cons_delim _ _ _ hsp, if_neg (by decide),
    runsFrom_plain a ha]
  simp only [List.nil_append, List.cons_append]
  rw [runsFrom_cons_delim _ _ _ hco, if_neg hane, runsFrom_cons_delim _ _ _ hsp, if_pos rfl,
    runsFrom_plain b hb]
  simp only [List.nil_append]
  rw [runsFrom_cons_delim _ _ _ hnl, if_neg hbne]
  rfl

/-! ## One `MOV` line, end to end -/

theorem codeLine_cmd_rest (d : Driver) (line : CStr) (h : (scanOf d line).cmd ≠ [])
    (hc : d.cmdLineNum < 16) :
    (codeLine d line).err =
      (GenCommand d.node d.lineNum (scanOf d line).cmd (scanOf d line).arg0
        (scanOf d line).arg1 (scanOf d line).err).2 ∧
    (codeLine d line).stdout = d.stdout ∧
    ((GenCommand d.node d.lineNum (scanOf d line).cmd (scanOf d line).arg0
        (scanOf d line).arg1 (scanOf d line).err).1 &&& 0xE000 ≠ 0xC000 →
      (codeLine d line).jump_labels = d.jump_labels) := by
  have hover : decide (d.cmdLineNum ≥ 16) = false := by simp; omega
  unfold codeLine
  simp only [h, ne_eq, not_false_eq_true, if_true, hover, Bool.false_eq_true, if_false]
  refine ⟨trivial, trivial, ?_⟩
  intro hj
  rw [if_neg hj]

theorem labelDiags_eq_nil (node : Int) (labels jump_labels : Nat → CStr) (c : Nat → Nat)
    (l : List Nat) (h : ∀ i ∈ l, slotDiags node labels jump_labels (c i) i = []) :
    labelDiags node labels jump_labels c l = [] := by
  induction l with
  | nil => rfl
  | cons x xs ih =>
    simp only [labelDiags]
    rw [h x (List.mem_cons_self _ _), ih (fun i hi => h i (List.mem_cons_of_mem _ hi))]
    rfl

/-- An idle word whose jump label is empty is left as `0xC000` when slot 0 has no
label, and prints nothing. -/
theorem idle_slot_unlabelled (node : Int) (labels jump_labels : Nat → CStr) (i : Nat)
    (h0 : labels 0 = []) (hj : jump_labels i = []) :
    resolvedWord labels jump_labels 0xC000 i = 0xC000 ∧
    slotDiags node labels jump_labels 0xC000 i = [] := by
  have hscan : labelScan labels (jump_labels i) 16 0 = 0 := by
    rw [hj, labelScan, if_pos h0]
  unfold resolvedWord slotDiags
  rw [hscan]
  exact ⟨by decide, if_neg (fun h => absurd h.2 (by decide))⟩

theorem nonjump_slot (node : Int) (labels jump_labels : Nat → CStr) (w i : Nat)
    (h : w &&& 0xE000 ≠ 0xC000) :
    resolvedWord labels jump_labels w i = w ∧ slotDiags node labels jump_labels w i = [] := by
  unfold resolvedWord slotDiags
  rw [if_neg h, if_neg (fun hx => h hx.1)]
  exact ⟨rfl, rfl⟩

/-- C12: a file made of a node directive `@idx` and the single line `MOV n, R`, both
closed by a newline, with `n` the decimal text of an integer in [-1024, 1023] and `R` a
register name, whatever the arrays of `main` hold at the start. The program exits with
status 0 and no diagnostic; slot 0 is `(code(R) << 12) | (n mod 2048)`, with `code(R)` the
position of `R` in the register table; slots 1..15 are `0xC000`; the output is the node
header (the value `atoi` reads after the `@`) followed by these 16 words. In particular `@0`, `MOV 5, ACC` gives slot 0 =
`0x1005` and slots 1..15 = `0xC000`. -/
theorem C12_single_MOV_line (labels0 jl0 : Nat → CStr) (c0 : Nat → Nat) (idx : CStr)
    (n : Int) (R : CStr)
    (hidx : '\n' ∉ idx) (hlen : idx.length ≤ 29)
    (hlo : -1024 ≤ n) (hhi : n ≤ 1023) (hR : R ∈ registerNames) :
    (main labels0 jl0 c0 (('@' :: idx) ++ '\n' ::
      (['M', 'O', 'V', ' '] ++ decimalText n ++ [',', ' '] ++ R ++ ['\n']))).1 = 0 ∧
    (main labels0 jl0 c0 (('@' :: idx) ++ '\n' ::
      (['M', 'O', 'V', ' '] ++ decimalText n ++ [',', ' '] ++ R ++ ['\n']))).2.err =
      ⟨false, []⟩ ∧
    (main labels0 jl0 c0 (('@' :: idx) ++ '\n' ::
      (['M', 'O', 'V', ' '] ++ decimalText n ++ [',', ' '] ++ R ++ ['\n']))).2.commands 0 =
      (registerNames.indexOf R <<< 12) ||| (n % 2048).toNat ∧
    (∀ j, 1 ≤ j → j < 16 →
      (main labels0 jl0 c0 (('@' :: idx) ++ '\n' ::
        (['M', 'O', 'V', ' '] ++ decimalText n ++ [',', ' '] ++ R ++ ['\n']))).2.commands j =
        0xC000) ∧
    (main labels0 jl0 c0 (('@' :: idx) ++ '\n' ::
      (['M', 'O', 'V', ' '] ++ decimalText n ++ [',', ' '] ++ R ++ ['\n']))).2.stdout =
      Out.header (atoi (idx ++ ['\n']) % 256).toNat ::
        printWords (main labels0 jl0 c0 (('@' :: idx) ++ '\n' ::
          (['M', 'O', 'V', ' '] ++ decimalText n ++ [',', ' '] ++ R ++ ['\n']))).2.commands ∧
    words (compile "@0\nMOV 5, ACC\n".toList).2.commands =
      [0x1005, 0xC000, 0xC000, 0xC000, 0xC000, 0xC000, 0xC000, 0xC000,
       0xC000, 0xC000, 0xC000, 0xC000, 0xC000, 0xC000, 0xC000, 0xC000] := by
  -- the two line buffers
  obtain ⟨hRp, hRne, hRlen⟩ := registerNames_token R hR
  have hdp := decimalText_plain n
  have hdne := decimalText_ne_nil n
  have hdlen := decimalText_length n hlo hhi
  have hbodych : ∀ ch ∈ ['M', 'O', 'V', ' '] ++ decimalText n ++ [',', ' '] ++ R,
      ch ≠ '#' ∧ ch ≠ ':' ∧ ch ≠ '\x00' ∧ ch ≠ '\n' := by
    intro ch hch
    simp only [List.mem_append, List.mem_cons, List.mem_singleton, List.not_mem_nil,
      or_false] at hch
    rcases hch with ((h | h) | h) | h
    · rcases h with h | h | h | h <;> subst h <;> decide
    · obtain ⟨p1, p2, _, _, _, p6, p7⟩ := isPlain_ne ch (hdp ch h)
      exact ⟨p2, p1, p7, p6⟩
    · rcases h with h | h <;> subst h <;> decide
    · obtain ⟨p1, p2, _, _, _, p6, p7⟩ := isPlain_ne ch (hRp ch h)
      exact ⟨p2, p1, p7, p6⟩
  have hl1 : '\n' ∉ '@' :: idx := by
    intro h
    rcases List.mem_cons.mp h with h | h
    · exact absurd h (by decide)
    · exact hidx h
  have hl2 : '\n' ∉ ['M', 'O', 'V', ' '] ++ decimalText n ++ [',', ' '] ++ R :=
    fun h => (hbodych _ h).2.2.2 rfl
  have hn2 : (['M', 'O', 'V', ' '] ++ decimalText n ++ [',', ' '] ++ R).length ≤ 30 := by
    simp only [List.length_append, List.length_cons, List.length_nil]
    omega
  have hloop := mainLoop_two_lines ('@' :: idx)
    (['M', 'O', 'V', ' '] ++ decimalText n ++ [',', ' '] ++ R) hl1 hl2
    (by simp only [List.length_cons]; omega) hn2 (initDriver labels0 jl0 c0)
  have hp1 : processLine (initDriver labels0 jl0 c0) ('@' :: idx ++ ['\n']) =
      nodeLine (initDriver labels0 jl0 c0) ('@' :: idx ++ ['\n']) := by
    rw [processLine, if_pos (by simp)]
  have hbody3 : ∀ ch ∈ ['M', 'O', 'V', ' '] ++ decimalText n ++ [',', ' '] ++ R,
      ch ≠ '#' ∧ ch ≠ ':' ∧ ch ≠ '\x00' :=
    fun ch hch => ⟨(hbodych ch hch).1, (hbodych ch hch).2.1, (hbodych ch hch).2.2.1⟩
  -- the state after the node directive
  generalize hd1 : nodeLine (initDriver labels0 jl0 c0) ('@' :: idx ++ ['\n']) = d1 at hp1
  have d1err : d1.err = ⟨false, []⟩ := by rw [← hd1]; rfl
  have d1cmd : ∀ j, j < 16 → d1.commands j = 0xC000 := by
    intro j hj; rw [← hd1]; simp only [nodeLine, if_pos hj]
  have d1lab : ∀ j, j < 16 → d1.labels j = [] := by
    intro j hj; rw [← hd1]; simp only [nodeLine, if_pos hj]
  have d1jl : ∀ j, j < 16 → d1.jump_labels j = [] := by
    intro j hj; rw [← hd1]; simp only [nodeLine, if_pos hj]
  have d1c : d1.cmdLineNum = 0 := by rw [← hd1]; rfl
  have d1np : d1.nodeProcessed = true := by rw [← hd1]; rfl
  have d1out : d1.stdout = [Out.header (atoi (idx ++ ['\n']) % 256).toNat] := by rw [← hd1]; rfl
  -- the tokens of the line
  obtain ⟨t1, t2, t3, t4, t5⟩ := scanOf_runs d1 _ hbody3
  rw [runs_MOV_line _ _ hdp hRp hdne hRne] at t1 t2 t3 t5
  simp only [List.getD_cons_zero, List.getD_cons_succ, List.length_cons, List.length_nil]
    at t1 t2 t3 t5
  rw [if_pos (by omega)] at t5
  generalize hline : ['M', 'O', 'V', ' '] ++ decimalText n ++ [',', ' '] ++ R ++ ['\n'] = line
    at t1 t2 t3 t4 t5 hloop ⊢
  have hp2 : processLine d1 line = codeLine d1 line := by
    rw [processLine, if_neg]
    rw [← hline]
    simp
  have hcne : (scanOf d1 line).cmd ≠ [] := by rw [t1]; decide
  -- the word of the line
  have hk : registerNames.indexOf R < 8 := by
    have := EncodeReg_lt d1.node d1.lineNum R d1.err
    rw [EncodeReg_indexOf _ _ _ _ hR] at this
    exact this
  have hm : (n % 2048).toNat < 4096 := by omega
  have hg : GenCommand d1.node d1.lineNum (scanOf d1 line).cmd (scanOf d1 line).arg0
      (scanOf d1 line).arg1 (scanOf d1 line).err =
      ((registerNames.indexOf R <<< 12) ||| (n % 2048).toNat, ⟨false, []⟩) := by
    rw [t1, t2, t3, t5, d1err]
    simp only [GenCommand, if_true, EncodeSource_decimalText _ _ _ n hlo hhi,
      EncodeReg_indexOf _ _ _ _ hR]
    rw [(pack_fields _ _ hk hm).1]
  have hwlt := mov_word_lt _ _ hk hm
  rw [(pack_fields _ _ hk hm).1] at hwlt
  have hnj : ((registerNames.indexOf R <<< 12) ||| (n % 2048).toNat) &&& 0xE000 ≠ 0xC000 := by
    rw [Ne, jumpClass_iff]
    omega
  -- the state after the line
  obtain ⟨c1, c2, c3, _⟩ := codeLine_cmd d1 line hcne (by omega)
  obtain ⟨c5, c6, c7⟩ := codeLine_cmd_rest d1 line hcne (by omega)
  rw [hg] at c2 c5 c7
  have c8 := codeLine_labels d1 line
  obtain ⟨c9, c10⟩ := codeLine_node d1 line
  generalize hd2 : codeLine d1 line = d2 at c1 c2 c3 c5 c6 c7 c8 c9 c10 hp2
  have d2lab : ∀ j, j < 16 → d2.labels j = [] := by
    intro j hj; rw [c8, t4]; exact d1lab j hj
  have d2jl : ∀ j, j < 16 → d2.jump_labels j = [] := by
    intro j hj; rw [c7 hnj]; exact d1jl j hj
  have d2c0 : d2.commands 0 = (registerNames.indexOf R <<< 12) ||| (n % 2048).toNat := by
    rw [c2 0, d1c, if_pos rfl]
  have d2cj : ∀ j, 1 ≤ j → j < 16 → d2.commands j = 0xC000 := by
    intro j h1 hj
    rw [c2 j, d1c, if_neg (by omega)]
    exact d1cmd j hj
  -- label resolution
  have hslot : ∀ j, j < 16 →
      resolvedWord d2.labels d2.jump_labels (d2.commands j) j = d2.commands j ∧
      slotDiags d2.node d2.labels d2.jump_labels (d2.commands j) j = [] := by
    intro j hj
    by_cases h0 : j = 0
    · subst h0
      rw [d2c0]
      exact nonjump_slot _ _ _ _ _ hnj
    · rw [d2cj j (by omega) hj]
      exact idle_slot_unlabelled _ _ _ _ (d2lab 0 (by omega)) (d2jl j hj)
  obtain ⟨s1, _⟩ := EncodeLabels_slot d2.node d2.commands d2.labels d2.jump_labels d2.err
  obtain ⟨f1, _⟩ := EncodeLabels_flag d2.node d2.commands d2.labels d2.jump_labels d2.err
  have hdiag := labelDiags_eq_nil d2.node d2.labels d2.jump_labels d2.commands (List.range 16)
    (fun i hi => (hslot i (List.mem_range.mp hi)).2)
  have herr : (EncodeLabels d2.node d2.commands d2.labels d2.jump_labels d2.err).2 =
      ⟨false, []⟩ := by rw [f1 hdiag, c5]
  have hcmds : ∀ j, (EncodeLabels d2.node d2.commands d2.labels d2.jump_labels d2.err).1 j =
      d2.commands j := by
    intro j
    rw [s1 j]
    split
    · rename_i hj; exact (hslot j hj).1
    · rfl
  have hmain : main labels0 jl0 c0 (('@' :: idx) ++ '\n' :: line) = finish d2 := by
    rw [main, hloop, hp1, hp2]
  have hemit : emitNode d2 = { d2 with
      commands := (EncodeLabels d2.node d2.commands d2.labels d2.jump_labels d2.err).1
      err := ⟨false, []⟩
      stdout := d2.stdout ++
        printWords (EncodeLabels d2.node d2.commands d2.labels d2.jump_labels d2.err).1 } := by
    simp only [emitNode, c10.trans d1np, if_true, herr]
  have hfin : finish d2 = (0, { d2 with
      commands := (EncodeLabels d2.node d2.commands d2.labels d2.jump_labels d2.err).1
      err := ⟨false, []⟩
      stdout := d2.stdout ++
        printWords (EncodeLabels d2.node d2.commands d2.labels d2.jump_labels d2.err).1 }) := by
    rw [finish, hemit]
    rfl
  rw [hmain, hfin]
  refine ⟨rfl, rfl, ?_, ?_, ?_, by decide⟩
  · show (EncodeLabels d2.node d2.commands d2.labels d2.jump_labels d2.err).1 0 = _
    rw [hcmds 0, d2c0]
  · intro j h1 hj
    show (EncodeLabels d2.node d2.commands d2.labels d2.jump_labels d2.err).1 j = _
    rw [hcmds j, d2cj j h1 hj]
  · show d2.stdout ++
      printWords (EncodeLabels d2.node d2.commands d2.labels d2.jump_labels d2.err).1 = _
    rw [c6, d1out]
    rfl

/-- Witness for C12: node `0` with the line `MOV 5, ACC`, the arrays of `main` holding
arbitrary values at the start. -/
theorem C12_single_MOV_line_witness :
    (main (fun _ => ['x']) (fun _ => ['y']) (fun _ => 7) (('@' :: ['0']) ++ '\n' ::
      (['M', 'O', 'V', ' '] ++ decimalText 5 ++ [',', ' '] ++ ['A', 'C', 'C'] ++ ['\n']))).1 = 0 ∧
    (main (fun _ => ['x']) (fun _ => ['y']) (fun _ => 7) (('@' :: ['0']) ++ '\n' ::
      (['M', 'O', 'V', ' '] ++ decimalText 5 ++ [',', ' '] ++ ['A', 'C', 'C'] ++
        ['\n']))).2.commands 0 =
      (registerNames.indexOf ['A', 'C', 'C'] <<< 12) ||| ((5 : Int) % 2048).toNat :=
  have h := C12_single_MOV_line (fun _ => ['x']) (fun _ => ['y']) (fun _ => 7) ['0'] 5
    ['A', 'C', 'C'] (by decide) (by decide) (by decide) (by decide) (by decide)
  ⟨h.1, h.2.2.1⟩

/-! ## Labels: which colon counts -/

theorem scanChar_commentflag (node : Int) (lineNum c : Nat) (s : Scan) (ch : Char)
    (hch : ch ≠ '#') (hc : s.commentflag = false) :
    (scanChar node lineNum c s ch).commentflag = false := by
  unfold scanChar
  by_cases h1 : ch = ':' ∧ s.commentflag = false ∧ c < 16
  · rw [if_pos h1]; exact hc
  · rw [if_neg h1, if_neg hch]
    by_cases h3 : s.commentflag = false ∧ (ch = ',' ∨ ch = ' ' ∨ ch = '\r' ∨ ch = '\n')
    · rw [if_pos h3]
      simp only
      repeat' split
      all_goals exact hc
    · rw [if_neg h3]; exact hc

theorem scanLine_commentflag (node : Int) (lineNum c : Nat) (line : CStr) (hl : '#' ∉ line) :
    ∀ s : Scan, s.commentflag = false →
      (scanLine node lineNum c line s).commentflag = false := by
  induction line with
  | nil => intro s hc; exact hc
  | cons x xs ih =>
    intro s hc
    have hx : x ≠ '#' := fun h => hl (h ▸ List.mem_cons_self _ _)
    rw [scanLine]
    split
    · exact hc
    · exact ih (fun h => hl (List.mem_cons_of_mem _ h)) _
        (scanChar_commentflag _ _ _ _ _ hx hc)

/-- A colon outside a comment, while fewer than 16 code lines are stored, stores the word
being read as the label of the current slot and starts a new word. -/
theorem scanChar_colon (node : Int) (lineNum c : Nat) (s : Scan) (hc : s.commentflag = false)
    (h16 : c < 16) :
    scanChar node lineNum c s ':' =
      { s with labels := fun x => if x = c then s.word else s.labels x, word := [] } := by
  unfold scanChar
  rw [if_pos ⟨rfl, hc, h16⟩]

/-- Characters in which no `:` comes before the first `#` leave the label table alone. -/
theorem scanLine_labels_no_colon (node : Int) (lineNum c : Nat) (post : CStr)
    (hp : ':' ∉ post.takeWhile (fun ch => ch != '#')) :
    ∀ s : Scan, (scanLine node lineNum c post s).labels = s.labels := by
  induction post with
  | nil => intro s; rfl
  | cons x xs ih =>
    intro s
    rw [scanLine]
    split
    · rfl
    · by_cases hx : x = '#'
      · subst hx
        have hstep : scanChar node lineNum c s '#' = { s with commentflag := true } := by
          unfold scanChar
          rw [if_neg (fun h => absurd h.1 (by decide)), if_pos rfl]
        rw [hstep]
        exact (scanLine_comment node lineNum c xs _ rfl).2.2.2.1
      · have htw : List.takeWhile (fun ch => ch != '#') (x :: xs) =
            x :: List.takeWhile (fun ch => ch != '#') xs := by
          rw [List.takeWhile_cons, if_pos (by simpa using hx)]
        rw [htw] at hp
        have hxc : x ≠ ':' := fun h => hp (h ▸ List.mem_cons_self _ _)
        have hstep : (scanChar node lineNum c s x).labels = s.labels := by
          unfold scanChar
          rw [if_neg (fun h => hxc h.1), if_neg hx]
          by_cases h3 : s.commentflag = false ∧ (x = ',' ∨ x = ' ' ∨ x = '\r' ∨ x = '\n')
          · rw [if_pos h3]
            simp only
            repeat' split
            all_goals rfl
          · rw [if_neg h3]
        rw [ih (fun h => hp (List.mem_cons_of_mem _ h)), hstep]

/-- After a text without `#` and NUL that is empty or ends in a separator or a colon, no
word is being read. -/
theorem scanLine_word_after_sep (node : Int) (lineNum c : Nat) (pre : CStr) (h16 : c < 16)
    (hh : '#' ∉ pre) (h0 : '\x00' ∉ pre)
    (hend : pre = [] ∨ ∃ p sep, pre = p ++ [sep] ∧ (sep = ':' ∨ isDelim sep = true))
    (s : Scan) (hc : s.commentflag = false) (hw : s.word = []) :
    (scanLine node lineNum c pre s).word = [] ∧
    (scanLine node lineNum c pre s).commentflag = false := by
  refine ⟨?_, scanLine_commentflag _ _ _ _ hh s hc⟩
  rcases hend with h | ⟨p, sep, hp, hsep⟩
  · subst h; exact hw
  · subst hp
    have hp0 : '\x00' ∉ p := fun h => h0 (List.mem_append_left _ h)
    have hph : '#' ∉ p := fun h => hh (List.mem_append_left _ h)
    have hs0 : sep ≠ '\x00' := fun h => h0 (h ▸ by simp)
    have hcf := scanLine_commentflag node lineNum c p hph s hc
    rw [scanLine_append _ _ _ _ _ hp0, scanLine_cons_ne _ _ _ _ _ _ hs0, scanLine]
    rcases hsep with h | h
    · subst h
      rw [scanChar_colon _ _ _ _ hcf h16]
    · rw [scanChar_delim _ _ _ _ _ h hcf]

/-- The label a line leaves in the current slot: the word read up to the last colon that
is outside a comment. -/
theorem scanOf_last_colon (d : Driver) (pre w post : CStr) (h16 : d.cmdLineNum < 16)
    (hh : '#' ∉ pre) (h0 : '\x00' ∉ pre)
    (hend : pre = [] ∨ ∃ p sep, pre = p ++ [sep] ∧ (sep = ':' ∨ isDelim sep = true))
    (hw : ∀ ch ∈ w, isPlain ch = true)
    (hpost : ':' ∉ post.takeWhile (fun ch => ch != '#')) :
    (scanOf d (pre ++ w ++ ':' :: post)).labels d.cmdLineNum = w ∧
    ∀ x, x ≠ d.cmdLineNum → (scanOf d (pre ++ w ++ ':' :: post)).labels x = d.labels x := by
  refine ⟨?_, fun x hx => scanOf_labels_frame d _ x hx⟩
  have hw0 : '\x00' ∉ w := fun h => (isPlain_ne _ (hw _ h)).2.2.2.2.2.2 rfl
  obtain ⟨a1, a2⟩ := scanLine_word_after_sep d.node d.lineNum d.cmdLineNum pre h16 hh h0 hend
    { commentflag := false, word := [], cmd := [], arg0 := [], arg1 := [],
      labels := d.labels, err := d.err } rfl rfl
  unfold scanOf
  rw [List.append_assoc, scanLine_append _ _ _ _ _ h0, scanLine_append _ _ _ _ _ hw0,
    scanLine_plain _ _ _ _ hw, scanLine_cons_ne _ _ _ _ _ _ (by decide)]
  generalize scanLine d.node d.lineNum d.cmdLineNum pre
    { commentflag := false, word := [], cmd := [], arg0 := [], arg1 := [],
      labels := d.labels, err := d.err } = S at a1 a2
  rw [scanChar_colon _ _ _ { S with word := S.word ++ w } a2 h16,
    scanLine_labels_no_colon _ _ _ _ hpost]
  simp only [if_true, a1, List.nil_append]

/-- C13, as the code has it: on a line processed while fewer than 16 code lines are
stored, the label recorded for the current slot is the word that ends at the LAST colon
outside a comment. The line is `pre ++ w ++ ":" ++ post`, where `pre` (without `#`) is
empty or ends in a separator or a colon, `w` is a word of plain characters, and `post`
has no colon before its first `#`; no other label entry changes. -/
theorem C13_last_colon_wins (d : Driver) (pre w post : CStr) (h16 : d.cmdLineNum < 16)
    (hh : '#' ∉ pre) (h0 : '\x00' ∉ pre)
    (hend : pre = [] ∨ ∃ p sep, pre = p ++ [sep] ∧ (sep = ':' ∨ isDelim sep = true))
    (hw : ∀ ch ∈ w, isPlain ch = true)
    (hpost : ':' ∉ post.takeWhile (fun ch => ch != '#')) :
    (scanOf d (pre ++ w ++ ':' :: post)).labels d.cmdLineNum = w ∧
    (codeLine d (pre ++ w ++ ':' :: post)).labels d.cmdLineNum = w ∧
    ∀ x, x ≠ d.cmdLineNum →
      (codeLine d (pre ++ w ++ ':' :: post)).labels x = d.labels x := by
  obtain ⟨h1, h2⟩ := scanOf_last_colon d pre w post h16 hh h0 hend hw hpost
  refine ⟨h1, ?_, ?_⟩
  · rw [codeLine_labels, h1]
  · intro x hx
    rw [codeLine_labels, h2 x hx]

/-- Witness for C13: the line `a: b: NOP # c:d` in a fresh node records the label `b`. -/
theorem C13_last_colon_wins_witness :
    (codeLine (nodeLine (initDriver (fun _ => []) (fun _ => []) (fun _ => 0)) "@0\n".toList)
      ("a: ".toList ++ "b".toList ++ ':' :: " NOP # c:d\n".toList)).labels
      (nodeLine (initDriver (fun _ => []) (fun _ => []) (fun _ => 0)) "@0\n".toList).cmdLineNum =
      "b".toList :=
  (C13_last_colon_wins
    (nodeLine (initDriver (fun _ => []) (fun _ => []) (fun _ => 0)) "@0\n".toList)
    "a: ".toList "b".toList " NOP # c:d\n".toList (by decide) (by decide) (by decide)
    (Or.inr ⟨"a:".toList, ' ', by decide, Or.inr (by decide)⟩) (by decide) (by decide)).2.1

/-- C13 fails as stated: the source `@0`, `a: b: NOP` leaves `b`, not `a`, as the label of
slot 0; and in `@0`, `a: b: JMP a` the jump to `a` is reported as an undefined label. -/
theorem C13_first_colon_counterexample :
    (compile "@0\na: b: NOP\n".toList).2.labels 0 = ['b'] ∧
    (compile "@0\na: b: NOP\n".toList).2.labels 0 ≠ ['a'] ∧
    (compile "@0\na: b: JMP a\n".toList).2.err =
      ⟨true, [Diag.labelNotFound 0 1 ['a'], Diag.compilationFailed]⟩ := by
  refine ⟨by decide, by decide, by decide⟩

/-! ## Comments -/

/-- C14 (the code loses the word that a `#` follows directly): in a fresh node the line
`NOP#c` yields no mnemonic whereas `NOP` yields the mnemonic `NOP`, and `ADD 1#c` yields
`ADD` without operand whereas `ADD 1` yields operand `1`. End to end, `@0`, `NOP#c`
leaves slot 0 idle (`0xC000`) where `@0`, `NOP` stores `0x0000`, and `@0`, `ADD 1#c`
stores `0x8800` with an unknown-register error where `@0`, `ADD 1` stores `0x8001`
without error. -/
theorem C14_word_before_hash_is_lost :
    (scanOf (nodeLine (initDriver (fun _ => []) (fun _ => []) (fun _ => 0)) "@0\n".toList)
      "NOP#c\n".toList).cmd = [] ∧
    (scanOf (nodeLine (initDriver (fun _ => []) (fun _ => []) (fun _ => 0)) "@0\n".toList)
      "NOP\n".toList).cmd = ['N', 'O', 'P'] ∧
    (scanOf (nodeLine (initDriver (fun _ => []) (fun _ => []) (fun _ => 0)) "@0\n".toList)
      "ADD 1#c\n".toList).cmd = ['A', 'D', 'D'] ∧
    (scanOf (nodeLine (initDriver (fun _ => []) (fun _ => []) (fun _ => 0)) "@0\n".toList)
      "ADD 1#c\n".toList).arg0 = [] ∧
    (scanOf (nodeLine (initDriver (fun _ => []) (fun _ => []) (fun _ => 0)) "@0\n".toList)
      "ADD 1\n".toList).arg0 = ['1'] ∧
    (compile "@0\nNOP#c\n".toList).2.commands 0 = 0xC000 ∧
    (compile "@0\nNOP\n".toList).2.commands 0 = 0x0000 ∧
    (compile "@0\nADD 1#c\n".toList).2.commands 0 = 0x8800 ∧
    (compile "@0\nADD 1#c\n".toList).2.err =
      ⟨true, [Diag.invalidRegister 0 1 [], Diag.compilationFailed]⟩ ∧
    (compile "@0\nADD 1\n".toList).2.commands 0 = 0x8001 ∧
    (compile "@0\nADD 1\n".toList).2.err = ⟨false, []⟩ := by
  refine ⟨by decide, by decide, by decide, by decide, by decide, by decide, by decide,
    by decide, by decide, by decide, by decide⟩

/-! ## Lines without mnemonic -/

theorem scanChar_cmd_nil (node : Int) (lineNum c : Nat) (s : Scan) (ch : Char)
    (h : (scanChar node lineNum c s ch).cmd = []) :
    s.cmd = [] ∧ (scanChar node lineNum c s ch).err = s.err := by
  unfold scanChar at h ⊢
  by_cases h1 : ch = ':' ∧ s.commentflag = false ∧ c < 16
  · rw [if_pos h1] at h ⊢
    exact ⟨h, rfl⟩
  · rw [if_neg h1] at h ⊢
    by_cases h2 : ch = '#'
    · rw [if_pos h2] at h ⊢
      exact ⟨h, rfl⟩
    · rw [if_neg h2] at h ⊢
      by_cases h3 : s.commentflag = false ∧ (ch = ',' ∨ ch = ' ' ∨ ch = '\r' ∨ ch = '\n')
      · rw [if_pos h3] at h ⊢
        by_cases hw : s.word = []
        · simp only [hw, ne_eq, not_true_eq_false, if_false] at h ⊢
          exact ⟨h, trivial⟩
        · by_cases hcmd : s.cmd = []
          · simp only [hw, ne_eq, not_false_eq_true, if_true, hcmd] at h
          · by_cases ha0 : s.arg0 = []
            · simp only [hw, ne_eq, not_false_eq_true, if_true, hcmd, if_false, ha0] at h
            · by_cases ha1 : s.arg1 = []
              · simp only [hw, ne_eq, not_false_eq_true, if_true, hcmd, if_false, ha0,
                  ha1] at h
              · simp only [hw, ne_eq, not_false_eq_true, if_true, hcmd, if_false, ha0,
                  ha1] at h
      · rw [if_neg h3] at h ⊢
        exact ⟨h, rfl⟩

/-- A scan that ends without mnemonic started without one and recorded no error. -/
theorem scanLine_cmd_nil (node : Int) (lineNum c : Nat) (line : CStr) :
    ∀ s : Scan, (scanLine node lineNum c line s).cmd = [] →
      s.cmd = [] ∧ (scanLine node lineNum c line s).err = s.err := by
  induction line with
  | nil => intro s h; exact ⟨h, rfl⟩
  | cons x xs ih =>
    intro s h
    rw [scanLine] at h ⊢
    split at h
    · rename_i hx
      rw [if_pos hx]
      exact ⟨h, rfl⟩
    · rename_i hx
      rw [if_neg hx]
      obtain ⟨i1, i2⟩ := ih _ h
      obtain ⟨j1, j2⟩ := scanChar_cmd_nil _ _ _ _ _ i1
      exact ⟨j1, i2.trans j2⟩

theorem delims_no_nul (ws : CStr) (h : ∀ ch ∈ ws, isDelim ch = true) : '\x00' ∉ ws :=
  fun hm => (isDelim_ne _ (h _ hm)).2.2.1 rfl

theorem plain_no_nul (w : CStr) (h : ∀ ch ∈ w, isPlain ch = true) : '\x00' ∉ w :=
  fun hm => (isPlain_ne _ (h _ hm)).2.2.2.2.2.2 rfl

/-- A blank line and a comment-only line have no mnemonic. -/
theorem scanOf_blank_or_comment (d : Driver) (ws com : CStr)
    (hws : ∀ ch ∈ ws, isDelim ch = true) (hcom : com = [] ∨ com.head? = some '#') :
    (scanOf d (ws ++ com)).cmd = [] := by
  unfold scanOf
  rw [scanLine_append _ _ _ _ _ (delims_no_nul ws hws), scanLine_delims _ _ _ _ hws _ rfl rfl]
  exact (scanLine_comment_tail _ _ _ com hcom _).1

/-- A label-only line, read while fewer than 16 code lines are stored, has no mnemonic
and records its label. -/
theorem scanOf_label_only (d : Driver) (ws1 w ws2 com : CStr) (h16 : d.cmdLineNum < 16)
    (hws1 : ∀ ch ∈ ws1, isDelim ch = true) (hw : ∀ ch ∈ w, isPlain ch = true)
    (hws2 : ∀ ch ∈ ws2, isDelim ch = true) (hcom : com = [] ∨ com.head? = some '#') :
    (scanOf d (ws1 ++ w ++ ':' :: (ws2 ++ com))).cmd = [] ∧
    (scanOf d (ws1 ++ w ++ ':' :: (ws2 ++ com))).labels d.cmdLineNum = w := by
  unfold scanOf
  rw [List.append_assoc, scanLine_append _ _ _ _ _ (delims_no_nul ws1 hws1),
    scanLine_delims _ _ _ _ hws1 _ rfl rfl, scanLine_append _ _ _ _ _ (plain_no_nul w hw),
    scanLine_plain _ _ _ _ hw, scanLine_cons_ne _ _ _ _ _ _ (by decide),
    scanChar_colon _ _ _ _ rfl h16, scanLine_append _ _ _ _ _ (delims_no_nul ws2 hws2),
    scanLine_delims _ _ _ _ hws2 _ rfl rfl]
  obtain ⟨c1, _, _, c4, _⟩ := scanLine_comment_tail d.node d.lineNum d.cmdLineNum com hcom
    { commentflag := false, word := [], cmd := [], arg0 := [], arg1 := [],
      labels := fun x => if x = d.cmdLineNum then [] ++ w else d.labels x, err := d.err }
  refine ⟨c1, ?_⟩
  rw [c4]
  simp

/-- C17, as the code has it: a line in which the scanner finds no mnemonic leaves every
instruction slot, the jump-label table, the code-line counter and the error state as
they were; only the label entry at the current code-line index may change. Every blank
line and every comment-only line is such a line, and so is every label-only line that is
processed while fewer than 16 code lines are stored. -/
theorem C17_no_mnemonic_frame (d : Driver) :
    (∀ line : CStr, line.head? ≠ some '@' → (scanOf d line).cmd = [] →
      (processLine d line).commands = d.commands ∧
      (processLine d line).jump_labels = d.jump_labels ∧
      (processLine d line).cmdLineNum = d.cmdLineNum ∧
      (processLine d line).err = d.err ∧
      ∀ x, x ≠ d.cmdLineNum → (processLine d line).labels x = d.labels x) ∧
    (∀ ws com : CStr, (∀ ch ∈ ws, isDelim ch = true) → (com = [] ∨ com.head? = some '#') →
      (scanOf d (ws ++ com)).cmd = []) ∧
    (∀ ws1 w ws2 com : CStr, d.cmdLineNum < 16 → (∀ ch ∈ ws1, isDelim ch = true) →
      (∀ ch ∈ w, isPlain ch = true) → (∀ ch ∈ ws2, isDelim ch = true) →
      (com = [] ∨ com.head? = some '#') →
      (scanOf d (ws1 ++ w ++ ':' :: (ws2 ++ com))).cmd = []) := by
  refine ⟨?_, fun ws com h1 h2 => scanOf_blank_or_comment d ws com h1 h2,
    fun ws1 w ws2 com h16 h1 h2 h3 h4 => (scanOf_label_only d ws1 w ws2 com h16 h1 h2 h3 h4).1⟩
  intro line hat hcmd
  rw [processLine, if_neg hat]
  obtain ⟨a1, a2, a3⟩ := codeLine_no_cmd d line hcmd
  refine ⟨a1, a2, a3, ?_, ?_⟩
  · have herr : (codeLine d line).err = (scanOf d line).err := by
      unfold codeLine
      simp only [hcmd, ne_eq, not_true_eq_false, if_false]
    rw [herr]
    exact (scanLine_cmd_nil _ _ _ _ _ hcmd).2
  · intro x hx
    rw [codeLine_labels, scanOf_labels_frame d line x hx]

/-- Witness for C17: the label-only line `loop:  # top` after one stored code line. -/
theorem C17_no_mnemonic_frame_witness :
    (processLine (stateAt (initDriver (fun _ => []) (fun _ => []) (fun _ => 0))
        ["@0\n".toList, "ADD 1\n".toList] 2) "loop:  # top\n".toList).commands =
      (stateAt (initDriver (fun _ => []) (fun _ => []) (fun _ => 0))
        ["@0\n".toList, "ADD 1\n".toList] 2).commands ∧
    (processLine (stateAt (initDriver (fun _ => []) (fun _ => []) (fun _ => 0))
        ["@0\n".toList, "ADD 1\n".toList] 2) "loop:  # top\n".toList).cmdLineNum =
      (stateAt (initDriver (fun _ => []) (fun _ => []) (fun _ => 0))
        ["@0\n".toList, "ADD 1\n".toList] 2).cmdLineNum :=
  have h := (C17_no_mnemonic_frame (stateAt (initDriver (fun _ => []) (fun _ => [])
    (fun _ => 0)) ["@0\n".toList, "ADD 1\n".toList] 2)).1 "loop:  # top\n".toList
    (by decide) (by decide)
  ⟨h.1, h.2.2.1⟩

/-- C17 fails as stated: after the node `@0` has stored 16 code lines `ADD 1`, the
label-only line `x:` is taken as a line with the mnemonic `x:`. Slot 0 changes from
`0x8001` to `0x0000`, the code-line counter goes from 16 to 1, and two errors are
recorded. -/
theorem C17_label_only_after_16_counterexample :
    (stateAt (initDriver (fun _ => []) (fun _ => []) (fun _ => 0))
      ("@0\n".toList :: List.replicate 16 "ADD 1\n".toList) 17).cmdLineNum = 16 ∧
    (stateAt (initDriver (fun _ => []) (fun _ => []) (fun _ => 0))
      ("@0\n".toList :: List.replicate 16 "ADD 1\n".toList) 17).commands 0 = 0x8001 ∧
    (stateAt (initDriver (fun _ => []) (fun _ => []) (fun _ => 0))
      ("@0\n".toList :: List.replicate 16 "ADD 1\n".toList) 17).err = ⟨false, []⟩ ∧
    (scanOf (stateAt (initDriver (fun _ => []) (fun _ => []) (fun _ => 0))
      ("@0\n".toList :: List.replicate 16 "ADD 1\n".toList) 17) "x:\n".toList).cmd =
      ['x', ':'] ∧
    (processLine (stateAt (initDriver (fun _ => []) (fun _ => []) (fun _ => 0))
      ("@0\n".toList :: List.replicate 16 "ADD 1\n".toList) 17) "x:\n".toList).commands 0 =
      0x0000 ∧
    (processLine (stateAt (initDriver (fun _ => []) (fun _ => []) (fun _ => 0))
      ("@0\n".toList :: List.replicate 16 "ADD 1\n".toList) 17) "x:\n".toList).cmdLineNum =
      1 ∧
    (processLine (stateAt (initDriver (fun _ => []) (fun _ => []) (fun _ => 0))
      ("@0\n".toList :: List.replicate 16 "ADD 1\n".toList) 17) "x:\n".toList).err =
      ⟨true, [Diag.tooManyLines 0, Diag.invalidOpcode 0 17 ['x', ':']]⟩ := by
  refine ⟨by decide, by decide, by decide, by decide, by decide, by decide, by decide⟩

/-! ## The error state only grows -/

end TIS100
